import Mathlib

/-!
Verification of the answer-key normalization, scoring and roster
reconciliation engine of the AnswerKeyEvaluation backend.

The Python sources are shallowly embedded:

* Python `str` values are Lean `String`s; per-character operations
  (`.strip()`, `.upper()`, `.lower()`, `.split()`, `.replace(_, "")`,
  substring tests) are modelled over `List Char` with ASCII semantics.
* Python `dict`s are association lists with overwrite-on-insert
  (`dictInsert`) and first-match lookup (`dictLookup`); insertion
  preserves the position of an overwritten key, as CPython does.
* Python `float`s are modelled as exact rationals `ℚ`.
* Functions that `raise` are modelled as `Except String _`.
-/

namespace SpecProof

/-! ## Python-style character and string primitives (ASCII model) -/

/-- Python whitespace class (`\s`, `str.strip`, `str.split`):
space, tab, newline, carriage return, vertical tab, form feed. -/
def isPyWS (c : Char) : Bool :=
  c = ' ' || c = '\t' || c = '\n' || c = '\r' || c = '\x0b' || c = '\x0c'

/-- ASCII `str.upper` on one character. -/
def upChar (c : Char) : Char :=
  if h : 97 ≤ c.toNat ∧ c.toNat ≤ 122 then
    Char.ofNatAux (c.toNat - 32) (Or.inl (by omega))
  else c

/-- ASCII `str.lower` on one character. -/
def lowChar (c : Char) : Char :=
  if h : 65 ≤ c.toNat ∧ c.toNat ≤ 90 then
    Char.ofNatAux (c.toNat + 32) (Or.inl (by omega))
  else c

/-- Python `str.strip()` (no arguments): drop leading and trailing whitespace. -/
def pyStrip (cs : List Char) : List Char :=
  ((cs.dropWhile isPyWS).reverse.dropWhile isPyWS).reverse

def pyStripStr (s : String) : String := String.mk (pyStrip s.data)

def pyUpper (s : String) : String := String.mk (s.data.map upChar)

def pyLower (s : String) : String := String.mk (s.data.map lowChar)

/-- Python `needle in hay` on strings. -/
def containsSub : List Char → List Char → Bool
  | [], needle => needle.isEmpty
  | c :: t, needle => needle.isPrefixOf (c :: t) || containsSub t needle

/-- Python `hay.replace(needle, "")`: remove non-overlapping occurrences
left to right. -/
def removeSub (needle : List Char) : List Char → List Char
  | [] => []
  | c :: cs =>
    if h : needle ≠ [] ∧ needle.isPrefixOf (c :: cs) then
      removeSub needle ((c :: cs).drop needle.length)
    else c :: removeSub needle cs
termination_by cs => cs.length
decreasing_by
  · have hlen : 1 ≤ needle.length := by
      cases needle with
      | nil => exact absurd rfl h.1
      | cons x xs => simp
    simp only [List.length_drop, List.length_cons]
    omega
  · simp

/-- Python `str.split()` (no arguments): split on whitespace runs,
dropping empty tokens. -/
def splitWS : List Char → List (List Char)
  | [] => []
  | c :: cs =>
    if isPyWS c then splitWS cs
    else (c :: cs.takeWhile (fun d => !isPyWS d)) ::
      splitWS (cs.dropWhile (fun d => !isPyWS d))
termination_by cs => cs.length
decreasing_by
  · simp
  · have := (List.dropWhile_sublist (l := cs) (fun d => !isPyWS d)).length_le
    simp only [List.length_cons]
    omega

/-- The regex class `\d` (ASCII model). -/
def isAsciiDigit (c : Char) : Bool := 48 ≤ c.toNat && c.toNat ≤ 57

/-- The regex class `[A-Za-z]` (ASCII model). -/
def isAsciiAlpha (c : Char) : Bool :=
  (65 ≤ c.toNat && c.toNat ≤ 90) || (97 ≤ c.toNat && c.toNat ≤ 122)

/-! ## Python dict as an association list -/

/-- `d[k] = v` on a Python dict: overwrite in place or append. -/
def dictInsert {κ α : Type} [DecidableEq κ] : List (κ × α) → κ → α → List (κ × α)
  | [], k, v => [(k, v)]
  | (k0, v0) :: rest, k, v =>
    if k0 = k then (k0, v) :: rest else (k0, v0) :: dictInsert rest k v

/-- `d.get(k)` on a Python dict. -/
def dictLookup {κ α : Type} [DecidableEq κ] : List (κ × α) → κ → Option α
  | [], _ => none
  | (k0, v0) :: rest, k => if k0 = k then some v0 else dictLookup rest k

/-! ## Data model (backend/models.py) -/

structure AnswerKeyEntry where
  correct_option : String
  marks : ℚ
deriving DecidableEq, Repr

structure AnswerKey where
  total_questions : Nat
  answers : List (Int × AnswerKeyEntry)
  negative_marking : ℚ
deriving DecidableEq, Repr

structure QuestionResult where
  question_number : Int
  marked : Option String
  correct : String
  result : String
  score : ℚ
deriving DecidableEq, Repr

structure StudentResult where
  entry_number : String
  name : String
  total_score : ℚ
  max_score : ℚ
  correct_count : Nat
  incorrect_count : Nat
  unattempted_count : Nat
  negative_deduction : ℚ
  details : List QuestionResult
deriving DecidableEq, Repr

/-! ## EvaluationService.match_and_score
(backend/services/evaluation_service.py, lines 17-127) -/

/-- A key of the raw `answers` dict coming from OCR/JSON: either already an
`int` or a string that `int(k)` must parse. -/
inductive PyKey where
  | pint (n : Int)
  | pstr (s : String)
deriving DecidableEq, Repr

def digitsToNat (cs : List Char) : Nat :=
  cs.foldl (fun a c => a * 10 + (c.toNat - 48)) 0

def parseDigits (cs : List Char) : Option Nat :=
  if cs ≠ [] ∧ cs.all isAsciiDigit then some (digitsToNat cs) else none

/-- Python `int(s)` on a string: optional surrounding whitespace,
optional sign, decimal digits; `none` models the `ValueError`. -/
def pyStrToInt (s : String) : Option Int :=
  match pyStrip s.data with
  | '-' :: rest => (parseDigits rest).map (fun n => -(n : Int))
  | '+' :: rest => (parseDigits rest).map (fun n => (n : Int))
  | cs => (parseDigits cs).map (fun n => (n : Int))

/-- Python `int(k)` on a dict key. -/
def pyKeyToInt : PyKey → Option Int
  | .pint n => some n
  | .pstr s => pyStrToInt s

/-- `option = str(v).strip().upper()`, then `"OPTION" in option` →
`option.replace("OPTION", "").strip()`. -/
def cleanAnswerOption (v : String) : String :=
  let opt := pyUpper (pyStripStr v)
  if containsSub opt.data "OPTION".data then
    pyStripStr (String.mk (removeSub "OPTION".data opt.data))
  else opt

/-- The raw student-answers payload handed to `match_and_score`. -/
structure StudentAnswers where
  entry_number : String
  name : String
  answers : List (PyKey × String)
deriving DecidableEq, Repr

/-- The normalization loop of `match_and_score` (lines 41-51): keys are
coerced with `int(k)` (failures skipped), values are cleaned; dict
assignment keeps the last value for a repeated key. -/
def normalize_student_answers (raw : List (PyKey × String)) : List (Int × String) :=
  raw.foldl (fun acc kv =>
    match pyKeyToInt kv.1 with
    | some q => dictInsert acc q (cleanAnswerOption kv.2)
    | none => acc) []

/-- Mutable locals of the scoring loop. -/
structure ScoreState where
  total_score : ℚ
  max_score : ℚ
  correct_count : Nat
  incorrect_count : Nat
  unattempted_count : Nat
  negative_deduction : ℚ
  details : List QuestionResult
deriving DecidableEq, Repr

/-- One iteration of the `for q_num, key_entry in answer_key.answers.items()`
loop (lines 61-112). -/
def scoreStep (negative_marking : ℚ) (student_ans : List (Int × String))
    (st : ScoreState) (kv : Int × AnswerKeyEntry) : ScoreState :=
  let q_num := kv.1
  let correct_option := pyUpper (pyStripStr kv.2.correct_option)
  let marks := kv.2.marks
  let st := { st with max_score := st.max_score + marks }
  match dictLookup student_ans q_num with
  | some marked =>
    if marked = "MULTIPLE" then
      { st with incorrect_count := st.incorrect_count + 1
                negative_deduction := st.negative_deduction + negative_marking
                total_score := st.total_score - negative_marking
                details := st.details ++
                  [⟨q_num, some marked, correct_option, "multiple", -negative_marking⟩] }
    else if marked = correct_option then
      { st with correct_count := st.correct_count + 1
                total_score := st.total_score + marks
                details := st.details ++
                  [⟨q_num, some marked, correct_option, "correct", marks⟩] }
    else
      { st with incorrect_count := st.incorrect_count + 1
                negative_deduction := st.negative_deduction + negative_marking
                total_score := st.total_score - negative_marking
                details := st.details ++
                  [⟨q_num, some marked, correct_option, "incorrect", -negative_marking⟩] }
  | none =>
      { st with unattempted_count := st.unattempted_count + 1
                details := st.details ++
                  [⟨q_num, none, correct_option, "unattempted", 0⟩] }

/-- Ordering of detail rows used by `details.sort(key=lambda d: d.question_number)`. -/
def qrLe (a b : QuestionResult) : Prop := a.question_number ≤ b.question_number

instance : DecidableRel qrLe := fun a b => Int.decLe _ _

instance : IsTotal QuestionResult qrLe := ⟨fun a b => Int.le_total _ _⟩

instance : IsTrans QuestionResult qrLe := ⟨fun _ _ _ h1 h2 => le_trans h1 h2⟩

namespace EvaluationService

/-- `EvaluationService.match_and_score` (evaluation_service.py lines 17-127):
pure scoring of one student's answers against the answer key. -/
def match_and_score (answer_key : AnswerKey) (student_answers : StudentAnswers) :
    StudentResult :=
  let student_ans := normalize_student_answers student_answers.answers
  let st := answer_key.answers.foldl
    (scoreStep answer_key.negative_marking student_ans)
    ⟨0, 0, 0, 0, 0, 0, []⟩
  { entry_number := pyStripStr student_answers.entry_number
    name := pyStripStr student_answers.name
    total_score := max st.total_score 0
    max_score := st.max_score
    correct_count := st.correct_count
    incorrect_count := st.incorrect_count
    unattempted_count := st.unattempted_count
    negative_deduction := st.negative_deduction
    details := List.insertionSort qrLe st.details }

end EvaluationService

/-! ## Specification-side notions for the scoring claims (spec.md §4.4)

These definitions follow the wording of the spec: a key question is
"answered correctly" when the student's normalized answer is present,
distinct from the `MULTIPLE` sentinel and equal to the key's (trimmed,
uppercased) correct option; it is penalized when an answer is present
and is the sentinel or differs from the correct option. -/

/-- Shorthand for the key's trimmed, uppercased correct option. -/
def normCorrectOf (e : AnswerKeyEntry) : String := pyUpper (pyStripStr e.correct_option)

def specCorrect (student_ans : List (Int × String)) (q : Int) (e : AnswerKeyEntry) : Prop :=
  dictLookup student_ans q ≠ none ∧
  dictLookup student_ans q ≠ some "MULTIPLE" ∧
  dictLookup student_ans q = some (normCorrectOf e)

instance (sa : List (Int × String)) (q : Int) (e : AnswerKeyEntry) :
    Decidable (specCorrect sa q e) := by
  unfold specCorrect; infer_instance

def specPenalized (student_ans : List (Int × String)) (q : Int) (e : AnswerKeyEntry) : Prop :=
  dictLookup student_ans q ≠ none ∧
  (dictLookup student_ans q = some "MULTIPLE" ∨
   dictLookup student_ans q ≠ some (normCorrectOf e))

instance (sa : List (Int × String)) (q : Int) (e : AnswerKeyEntry) :
    Decidable (specPenalized sa q e) := by
  unfold specPenalized; infer_instance

/-- Spec: `Σ(marks for correct)` over the key's questions. -/
def spec_correct_marks_sum (sa : List (Int × String)) :
    List (Int × AnswerKeyEntry) → ℚ
  | [] => 0
  | (q, e) :: rest =>
    (if specCorrect sa q e then e.marks else 0) + spec_correct_marks_sum sa rest

/-- Spec: `Σ(negative_marking for incorrect/multiple)` over the key's questions. -/
def spec_penalty_sum (neg : ℚ) (sa : List (Int × String)) :
    List (Int × AnswerKeyEntry) → ℚ
  | [] => 0
  | (q, e) :: rest =>
    (if specPenalized sa q e then neg else 0) + spec_penalty_sum neg sa rest

/-- Spec: number of key questions answered incorrectly, the `MULTIPLE`
sentinel counted among them. -/
def spec_incorrect_count (sa : List (Int × String)) :
    List (Int × AnswerKeyEntry) → Nat
  | [] => 0
  | (q, e) :: rest =>
    (if specPenalized sa q e then 1 else 0) + spec_incorrect_count sa rest

/-! ## SheetsService._normalize_entry_number (sheets_service.py lines 105-122)

`ENTRY_NUMBER_PATTERN = (\d{4})\s*([A-Za-z]{2,4})\s*(\d{2,5})` searched with
`re.search`.  The three character classes are pairwise disjoint, so the
greedy backtracking attempt at a given position succeeds exactly when the
deterministic reading below does: four digits, a whitespace run, a letter
run of length 2-4, a whitespace run, then at least two digits of which at
most five are consumed. -/

/-- The letter-group candidate at a position: letters after the first
whitespace run following the four digits. -/
def tripleLetters (cs : List Char) : List Char :=
  ((cs.drop 4).dropWhile isPyWS).takeWhile isAsciiAlpha

/-- The digit-group candidate at a position: up to five digits after the
letters and the second whitespace run. -/
def tripleDigits (cs : List Char) : List Char :=
  (((((cs.drop 4).dropWhile isPyWS).dropWhile isAsciiAlpha).dropWhile
      isPyWS).takeWhile isAsciiDigit).take 5

/-- One anchored attempt of the entry-number pattern. -/
def matchTripleAt (cs : List Char) : Option (List Char × List Char × List Char) :=
  if (cs.take 4).length = 4 ∧ (cs.take 4).all isAsciiDigit then
    if 2 ≤ (tripleLetters cs).length ∧ (tripleLetters cs).length ≤ 4 then
      if 2 ≤ (tripleDigits cs).length then
        some (cs.take 4, tripleLetters cs, tripleDigits cs)
      else none
    else none
  else none

/-- `re.search`: try every start position, leftmost first. -/
def findTriple : List Char → Option (List Char × List Char × List Char)
  | [] => none
  | c :: cs =>
    match matchTripleAt (c :: cs) with
    | some r => some r
    | none => findTriple cs

/-- The character class stripped by the fallback `re.sub(r'[\s\-_./]', '', _)`. -/
def isFallbackStrip (c : Char) : Bool :=
  isPyWS c || c = '-' || c = '_' || c = '.' || c = '/'

namespace SheetsService

/-- The fallback `re.sub(r'[\s\-_./]', '', clean).upper()` of
`_normalize_entry_number`. -/
def entryFallback (clean : List Char) : List Char :=
  (clean.filter (fun c => !isFallbackStrip c)).map upChar

/-- `SheetsService._normalize_entry_number` (sheets_service.py lines 105-122). -/
def normalize_entry_number (raw : String) : Option String :=
  if raw = "" ∨ pyLower raw ∈ ["unknown", "none", "n/a", ""] then none
  else
    match findTriple (pyStrip raw.data) with
    | some (year, branch, number) =>
      some (String.mk (year ++ branch.map upChar ++ number))
    | none =>
      if 6 ≤ (entryFallback (pyStrip raw.data)).length then
        some (String.mk (entryFallback (pyStrip raw.data)))
      else none

end SheetsService

/-! ## SheetsService._check_name_mismatch (sheets_service.py lines 128-153) -/

/-- A single-quote character, used in the mismatch message. -/
def sq : String := String.mk [Char.ofNat 39]

/-- The early-return chain of `_check_name_mismatch`: the names "match"
(the function returns `None`) exactly when one of these conditions fires.
Each disjunct is one `return None` of the source, in source order, with
`s`/`o` the stripped lowercased names. -/
def namesMatchCond (sheet_name ocr_name : String) : Prop :=
  sheet_name = "" ∨ ocr_name = "" ∨
  pyLower (pyStripStr sheet_name) = "" ∨
  pyLower (pyStripStr ocr_name) = "" ∨
  pyLower (pyStripStr sheet_name) = "unknown" ∨
  pyLower (pyStripStr ocr_name) = "unknown" ∨
  pyLower (pyStripStr sheet_name) = pyLower (pyStripStr ocr_name) ∨
  (∃ w ∈ splitWS (pyLower (pyStripStr sheet_name)).data,
    w ∈ splitWS (pyLower (pyStripStr ocr_name)).data) ∨
  containsSub (pyLower (pyStripStr ocr_name)).data
    (pyLower (pyStripStr sheet_name)).data = true ∨
  containsSub (pyLower (pyStripStr sheet_name)).data
    (pyLower (pyStripStr ocr_name)).data = true ∨
  (∃ w ∈ splitWS (pyLower (pyStripStr sheet_name)).data,
    3 ≤ w.length ∧ containsSub (pyLower (pyStripStr ocr_name)).data w = true) ∨
  (∃ w ∈ splitWS (pyLower (pyStripStr ocr_name)).data,
    3 ≤ w.length ∧ containsSub (pyLower (pyStripStr sheet_name)).data w = true)

instance (a b : String) : Decidable (namesMatchCond a b) := by
  unfold namesMatchCond; infer_instance

namespace SheetsService

/-- `SheetsService._check_name_mismatch` (sheets_service.py lines 128-153):
`none` when the names plausibly refer to the same person, otherwise a
human-readable mismatch message.  `entry_number` and `row` are accepted and
ignored, as in the source. -/
def check_name_mismatch (sheet_name ocr_name entry_number : String)
    (row : Nat) : Option String :=
  if namesMatchCond sheet_name ocr_name then none
  else some ("Name mismatch: Sheet=" ++ sq ++ sheet_name ++ sq ++
    " vs OCR=" ++ sq ++ ocr_name ++ sq)

end SheetsService

/-! ## SheetsService._detect_columns (sheets_service.py lines 453-511) -/

/-- `ENTRY_NUMBER_ALIASES` (membership-tested set). -/
def ENTRY_NUMBER_ALIASES : List String :=
  ["entry number", "entry_number", "entry no", "entry no.",
   "roll number", "roll_number", "roll no", "roll no.",
   "enrollment", "enrollment number", "enrollment no",
   "id", "student id", "student_id", "reg number",
   "registration number", "reg no", "reg no."]

def NAME_ALIASES : List String :=
  ["name", "student name", "student_name", "full name",
   "full_name", "candidate name"]

def MARKS_ALIASES : List String :=
  ["marks", "mark", "score", "total", "grade", "result",
   "total marks", "total_marks", "total score", "total_score",
   "obtained marks", "obtained_marks", "marks obtained"]

def COMMENTS_ALIASES : List String :=
  ["comments", "comment", "remarks", "remark", "feedback", "notes",
   "observation", "observations", "issues", "issue"]

/-- `SheetsService._index_to_letter`: 0 → "A", 25 → "Z", 26 → "AA", ... -/
def index_to_letter (index : Nat) : String :=
  if index < 26 then String.mk [Char.ofNat (65 + index % 26)]
  else index_to_letter (index / 26 - 1) ++ String.mk [Char.ofNat (65 + index % 26)]
termination_by index
decreasing_by
  have h2 : index / 26 < index := Nat.div_lt_self (by omega) (by omega)
  omega

/-- The separator class `[\s\.\-\_]` of `QUESTION_COLUMN_PATTERN`. -/
def isQSep (c : Char) : Bool := isPyWS c || c = '.' || c = '-' || c = '_'

/-- The `[\s\.\-\_]*(\d+)$` tail of the question-column pattern after a
candidate prefix: one greedy separator run, then one or more digits running
to the end of the header. -/
def qTailNumber (rest : List Char) : Option Nat :=
  if rest.dropWhile isQSep ≠ [] ∧ (rest.dropWhile isQSep).all isAsciiDigit then
    some (digitsToNat (rest.dropWhile isQSep))
  else none

/-- `QUESTION_COLUMN_PATTERN.match(h)` where
`QUESTION_COLUMN_PATTERN = ^(?:q|ques|question)?[\s\.\-\_]*(\d+)$`
(IGNORECASE; the caller passes an already lowercased header).  The regex
alternation backtracks through `q`, `ques`, `question` and the empty
prefix, in that order; the separator and digit runs are forced because the
classes are disjoint and the digits are anchored at the end. -/
def questionHeaderNumber (h : List Char) : Option Nat :=
  if "q".data.isPrefixOf h ∧ qTailNumber (h.drop 1) ≠ none then
    qTailNumber (h.drop 1)
  else if "ques".data.isPrefixOf h ∧ qTailNumber (h.drop 4) ≠ none then
    qTailNumber (h.drop 4)
  else if "question".data.isPrefixOf h ∧ qTailNumber (h.drop 8) ≠ none then
    qTailNumber (h.drop 8)
  else qTailNumber h

/-- A detected column: `{"index": idx, "letter": ..., "header": ...}`. -/
structure ColRef where
  index : Nat
  letter : String
  header : String
deriving DecidableEq, Repr

/-- The column map built by `_detect_columns`. -/
structure Columns where
  entry_number : Option ColRef := none
  name : Option ColRef := none
  marks : Option ColRef := none
  comments : Option ColRef := none
  questions : List (Int × ColRef) := []
deriving DecidableEq, Repr

/-- One iteration of the header loop of `_detect_columns`: the four singular
roles are tried in priority order (each `if not columns.get(role)` guard and
alias-set membership), then the question pattern, then the `isdigit`
fallback. -/
def detectStep (cols : Columns) (idx : Nat) (header_raw : String) : Columns :=
  if cols.entry_number = none ∧ pyLower (pyStripStr header_raw) ∈ ENTRY_NUMBER_ALIASES then
    { cols with entry_number := some ⟨idx, index_to_letter idx, header_raw⟩ }
  else if cols.name = none ∧ pyLower (pyStripStr header_raw) ∈ NAME_ALIASES then
    { cols with name := some ⟨idx, index_to_letter idx, header_raw⟩ }
  else if cols.marks = none ∧ pyLower (pyStripStr header_raw) ∈ MARKS_ALIASES then
    { cols with marks := some ⟨idx, index_to_letter idx, header_raw⟩ }
  else if cols.comments = none ∧ pyLower (pyStripStr header_raw) ∈ COMMENTS_ALIASES then
    { cols with comments := some ⟨idx, index_to_letter idx, header_raw⟩ }
  else
    match questionHeaderNumber (pyLower (pyStripStr header_raw)).data with
    | some qn =>
      { cols with questions :=
          dictInsert cols.questions (qn : Int) ⟨idx, index_to_letter idx, header_raw⟩ }
    | none =>
      -- `if header_raw.strip().isdigit()`: dead in the ASCII model (a purely
      -- numeric header always matches the pattern above); mirrored anyway
      if pyStrip header_raw.data ≠ [] ∧ (pyStrip header_raw.data).all isAsciiDigit then
        if dictLookup cols.questions (Int.ofNat (digitsToNat (pyStrip header_raw.data))) = none then
          { cols with questions := dictInsert cols.questions (Int.ofNat (digitsToNat (pyStrip header_raw.data))) ⟨idx, index_to_letter idx, header_raw⟩ }
        else cols
      else cols

def detectGo (cols : Columns) (idx : Nat) : List String → Columns
  | [] => cols
  | h :: rest => detectGo (detectStep cols idx h) (idx + 1) rest

namespace SheetsService

/-- `SheetsService._detect_columns` (sheets_service.py lines 453-511). -/
def detect_columns (headers : List String) : Columns :=
  detectGo ⟨none, none, none, none, []⟩ 0 headers

end SheetsService

/-! ## SheetsService.update_marks (sheets_service.py lines 227-442)

`update_marks` reads the roster (raising when the marks column is absent),
matches each roster row to a computed result (by normalized identifier,
falling back to a name heuristic), accumulates `batch_data` cell writes and
a summary, and finally pushes `batch_data` in chunks.  The pure core below
takes the already-read `columns`/`students` and the `results` list, and
models a successful batch write (`updated` set, no transport errors).
A cell write is represented structurally: the source's A1-style range
`'{sheet}'!{letter}{row}` carries exactly the sheet name, column letter and
row number. -/

/-- One computed result as passed to `update_marks` (a dict produced from a
`StudentResult`). -/
structure RResult where
  entry_number : String
  name : String
  comments : String
  total_score : ℚ
  details : List QuestionResult
deriving DecidableEq, Repr

/-- One roster row as produced by `read_student_list`. -/
structure RosterStudent where
  row : Nat
  entry_number : String
  name : String
  existing_comment : String
deriving DecidableEq, Repr

inductive CellVal where
  | num (q : ℚ)
  | str (s : String)
deriving DecidableEq, Repr

structure CellWrite where
  sheet : String
  col_letter : String
  row : Nat
  value : CellVal
deriving DecidableEq, Repr

structure MismatchRec where
  entry_number : String
  sheet_name : String
  ocr_name : String
  row : Nat
deriving DecidableEq, Repr

structure UpdateSummary where
  updated : Nat
  not_found_in_sheet : List String
  not_found_in_results : List String
  name_mismatches : List MismatchRec
  errors : List String
deriving DecidableEq, Repr

/-- Lines 250-255: `results_map[normalized] = r` for every result whose
(stripped) entry number normalizes. -/
def buildResultsMap (results : List RResult) : List (String × RResult) :=
  results.foldl (fun acc r =>
    match SheetsService.normalize_entry_number (pyStripStr r.entry_number) with
    | some normalized => dictInsert acc normalized r
    | none => acc) []

/-- Lines 292-314: the name-fallback acceptance test for one result, given
the row's cleaned sheet name. -/
def nameMatchPred (s_clean : String) (r : RResult) : Bool :=
  let o_clean := pyLower (pyStripStr r.name)
  if o_clean = "" then false
  else if s_clean = o_clean then true
  else
    let s_parts := (splitWS s_clean.data).dedup
    let o_parts := (splitWS o_clean.data).dedup
    let inter := (s_parts.filter (fun w => decide (w ∈ o_parts))).length
    if 2 ≤ inter then true
    else if 1 ≤ inter ∧ s_parts.length = 1 ∧ o_parts.length = 1 then true
    else false

/-- Lines 367-378: `q_map[int(d.question_number)] = d` (the coercion cannot
fail on the integer `question_number` field). -/
def buildQMap (details : List QuestionResult) : List (Int × QuestionResult) :=
  details.foldl (fun acc d => dictInsert acc d.question_number d) []

/-- Lines 392-407: the value written for one matched question column. -/
def qValToWrite (d : QuestionResult) : ℚ :=
  if d.result = "multiple" ∨ d.result = "unattempted" ∨ d.result = "incorrect" then 0
  else if d.result = "correct" then d.score
  else d.score

/-- Lines 387-417: one write per detected question column whose number has a
detail in `q_map`; columns without a detail are left untouched. -/
def questionWrites (sheet_name : String) (row : Nat)
    (qmap : List (Int × QuestionResult)) :
    List (Int × ColRef) → List CellWrite
  | [] => []
  | (q_num, col_info) :: rest =>
    (match dictLookup qmap q_num with
     | some q_data => [⟨sheet_name, col_info.letter, row, .num (qValToWrite q_data)⟩]
     | none => []) ++ questionWrites sheet_name row qmap rest

/-- Lines 331-349: `final_comments`, in order: the OCR comment if non-empty,
then the name-mismatch diagnostic if triggered. -/
def finalComments (student : RosterStudent) (result : RResult) : List String :=
  (if result.comments ≠ "" then [result.comments] else []) ++
  (match SheetsService.check_name_mismatch student.name result.name
      student.entry_number student.row with
   | some msg => [msg]
   | none => [])

/-- `"; ".join(_)`. -/
def joinSemicolon : List String → String
  | [] => ""
  | [s] => s
  | s :: rest => s ++ "; " ++ joinSemicolon rest

/-- Lines 342-348: the record appended to `summary['name_mismatches']` when
the diagnostic fires. -/
def mismatchRecords (student : RosterStudent) (result : RResult) : List MismatchRec :=
  match SheetsService.check_name_mismatch student.name result.name
      student.entry_number student.row with
  | some _ => [⟨student.entry_number, student.name, result.name, student.row⟩]
  | none => []

/-- Lines 327-417: all cell writes emitted for one matched (student, result)
pair: the total-score write, the comment write when a comments column exists
and the composed comment is non-empty, then the per-question writes. -/
def writesForStudent (sheet_name : String) (marksCol : ColRef)
    (commentsLetter : Option String) (questionCols : List (Int × ColRef))
    (student : RosterStudent) (result : RResult) : List CellWrite :=
  [⟨sheet_name, marksCol.letter, student.row, .num result.total_score⟩] ++
  (match commentsLetter with
   | some cl =>
     if joinSemicolon (finalComments student result) ≠ "" then
       [⟨sheet_name, cl, student.row, .str (joinSemicolon (finalComments student result))⟩]
     else []
   | none => []) ++
  questionWrites sheet_name student.row (buildQMap result.details) questionCols

/-- How one roster row fares in the matching cascade of lines 271-323. -/
inductive MatchOutcome where
  | skip
  | byId (normalized : String) (result : RResult)
  | byName (result : RResult)
  | unmatchedRow
deriving Repr

/-- Lines 271-323: normalize the row identifier (skip on failure), look it up
in `results_map`, else scan the results for a name match, else record the row
as unmatched. -/
def classifyStudent (results : List RResult) (rmap : List (String × RResult))
    (st : RosterStudent) : MatchOutcome :=
  match SheetsService.normalize_entry_number st.entry_number with
  | none => .skip
  | some normalized =>
    match dictLookup rmap normalized with
    | some result => .byId normalized result
    | none =>
      match (if pyLower (pyStripStr st.name) ≠ "" then
          results.find? (nameMatchPred (pyLower (pyStripStr st.name)))
        else none) with
      | some result => .byName result
      | none => .unmatchedRow

/-- The loop state accumulated over the roster rows. -/
structure PlanState where
  writes : List CellWrite
  matched : List String
  not_found_in_results : List String
  name_mismatches : List MismatchRec
deriving DecidableEq, Repr

/-- The `for student in students` loop of lines 271-417.  `matched` models
the `matched_normalized` set (insertion-ordered, duplicate-free). -/
def processStudents (sheet_name : String) (marksCol : ColRef)
    (commentsLetter : Option String) (questionCols : List (Int × ColRef))
    (results : List RResult) (rmap : List (String × RResult)) :
    List String → List RosterStudent → PlanState
  | matched, [] => ⟨[], matched, [], []⟩
  | matched, student :: rest =>
    match classifyStudent results rmap student with
    | .skip =>
      processStudents sheet_name marksCol commentsLetter questionCols results rmap
        matched rest
    | .byId normalized result =>
      let ps := processStudents sheet_name marksCol commentsLetter questionCols results
        rmap (if normalized ∈ matched then matched else matched ++ [normalized]) rest
      ⟨writesForStudent sheet_name marksCol commentsLetter questionCols student result ++
          ps.writes,
        ps.matched, ps.not_found_in_results,
        mismatchRecords student result ++ ps.name_mismatches⟩
    | .byName result =>
      let ps := processStudents sheet_name marksCol commentsLetter questionCols results
        rmap matched rest
      ⟨writesForStudent sheet_name marksCol commentsLetter questionCols student result ++
          ps.writes,
        ps.matched, ps.not_found_in_results,
        mismatchRecords student result ++ ps.name_mismatches⟩
    | .unmatchedRow =>
      let ps := processStudents sheet_name marksCol commentsLetter questionCols results
        rmap matched rest
      ⟨ps.writes, ps.matched, student.entry_number :: ps.not_found_in_results,
        ps.name_mismatches⟩

namespace SheetsService

/-- The pure core of `SheetsService.update_marks` (lines 227-442), given the
already-read sheet state; the batch write is modelled as succeeding, so
`updated` is `len(matched_normalized)` when any write was emitted and the
transport `errors` list stays empty.  `not_found_in_sheet` is initialized at
line 259 and never appended to anywhere in the function. -/
def update_marks_plan (sheet_name : String) (columns : Columns)
    (students : List RosterStudent) (results : List RResult) :
    Except String (List CellWrite × UpdateSummary) :=
  match columns.marks with
  | none => .error "No marks column detected."
  | some marksCol =>
    let ps := processStudents sheet_name marksCol (columns.comments.map ColRef.letter)
      columns.questions results (buildResultsMap results) [] students
    .ok (ps.writes,
      { updated := if ps.writes = [] then 0 else ps.matched.length
        not_found_in_sheet := []
        not_found_in_results := ps.not_found_in_results
        name_mismatches := ps.name_mismatches
        errors := [] })

end SheetsService

/-! ### Specification-side notions for the reconciliation claims (spec §4.6/4.7) -/

/-- The normalized identifiers of roster rows matched via the identifier
path: the row's identifier normalizes and is a key of `results_map`. -/
def idMatchList (rmap : List (String × RResult)) (students : List RosterStudent) :
    List String :=
  (students.filterMap (fun st => SheetsService.normalize_entry_number st.entry_number)).filter
    (fun n => decide (dictLookup rmap n ≠ none))

/-- Spec: the number of distinct normalized identifiers matched via the
identifier path. -/
def spec_id_matched_count (students : List RosterStudent) (results : List RResult) : Nat :=
  (idMatchList (buildResultsMap results) students).toFinset.card

/-- Spec: the number of roster rows matched by either path (identifier
normalization or the name fallback) — the "distinct matched students" of
§4.7. -/
def spec_matched_student_count (students : List RosterStudent)
    (results : List RResult) : Nat :=
  (students.filter (fun st =>
    match classifyStudent results (buildResultsMap results) st with
    | .byId _ _ => true
    | .byName _ => true
    | .skip => false
    | .unmatchedRow => false)).length

/-! ## AnswerKeyService._normalize (answer_key_service.py lines 464-500) -/

/-- The mantissa of a decimal float literal: `\d+(\.\d*)?` or `\.\d+`,
returning its value and the unconsumed tail. -/
def floatMantissa (cs : List Char) : Option (ℚ × List Char) :=
  match cs.dropWhile isAsciiDigit with
  | '.' :: r2 =>
    if cs.takeWhile isAsciiDigit = [] ∧ r2.takeWhile isAsciiDigit = [] then none
    else some ((digitsToNat (cs.takeWhile isAsciiDigit) : ℚ) +
      (digitsToNat (r2.takeWhile isAsciiDigit) : ℚ) /
        (10 : ℚ) ^ (r2.takeWhile isAsciiDigit).length,
      r2.dropWhile isAsciiDigit)
  | _ =>
    if cs.takeWhile isAsciiDigit = [] then none
    else some ((digitsToNat (cs.takeWhile isAsciiDigit) : ℚ),
      cs.dropWhile isAsciiDigit)

/-- The exponent tail of a float literal: empty, or `[eE][+-]?\d+`. -/
def floatExponent : List Char → Option Int
  | [] => some 0
  | c :: rest =>
    if c = 'e' ∨ c = 'E' then
      match rest with
      | '-' :: ds =>
        if ds ≠ [] ∧ ds.all isAsciiDigit then some (-(digitsToNat ds : Int)) else none
      | '+' :: ds =>
        if ds ≠ [] ∧ ds.all isAsciiDigit then some ((digitsToNat ds : Int)) else none
      | ds =>
        if ds ≠ [] ∧ ds.all isAsciiDigit then some ((digitsToNat ds : Int)) else none
    else none

/-- Python `float(s)` on a string (ASCII model of the finite decimal forms
`[+-]?(\d+(\.\d*)?|\.\d+)([eE][+-]?\d+)?` with surrounding whitespace);
`none` models the `ValueError`. -/
def pyStrToFloat (s : String) : Option ℚ :=
  match pyStrip s.data with
  | '-' :: rest =>
    (floatMantissa rest).bind (fun mr =>
      (floatExponent mr.2).map (fun e => -(mr.1 * (10 : ℚ) ^ e)))
  | '+' :: rest =>
    (floatMantissa rest).bind (fun mr =>
      (floatExponent mr.2).map (fun e => mr.1 * (10 : ℚ) ^ e))
  | cs =>
    (floatMantissa cs).bind (fun mr =>
      (floatExponent mr.2).map (fun e => mr.1 * (10 : ℚ) ^ e))

/-- The `marks` slot of a raw dict entry, as `value.get("marks", 1.0)` sees
it: the key may be absent (default `1.0`), hold a JSON number, hold a string
that `float()` must parse, or hold a value of another runtime type on which
`float()` raises. -/
inductive RawMarks where
  | absent
  | num (q : ℚ)
  | str (s : String)
  | other
deriving DecidableEq, Repr

/-- `float(value.get("marks", 1.0))`; `none` models the raised
`ValueError`/`TypeError`. -/
def pyFloatOfMarks : RawMarks → Option ℚ
  | .absent => some 1
  | .num q => some q
  | .str s => pyStrToFloat s
  | .other => none

/-- The value of one raw `answers` entry: a
`{"correct_option": ..., "marks": ...}` dict (the `.get` default already
applied to `correct_option`, the raw `marks` slot kept as found), a plain
option string, or any other runtime type (skipped by the source's
`else: continue`). -/
inductive RawVal where
  | vdict (correct_option : String) (marks : RawMarks)
  | vstr (s : String)
  | vother
deriving DecidableEq, Repr

/-- The `for key, value in raw_answers.items()` loop of `_normalize`:
`int(key)` (line 470) and, for dict values, `float(value.get("marks", 1.0))`
(line 473) are both evaluated outside any `try`, so either coercion failing
raises and aborts the whole normalization; a surviving entry is stored
whenever its trimmed uppercased option is non-empty (the single-letter
check only controls a warning). -/
def akNormalizeLoop : List (PyKey × RawVal) → List (Int × AnswerKeyEntry) →
    Except String (List (Int × AnswerKeyEntry))
  | [], acc => .ok acc
  | (key, value) :: rest, acc =>
    match pyKeyToInt key with
    | none => .error "invalid literal for int() with base 10"
    | some q_num =>
      match value with
      | .vdict copt rawMarks =>
        match pyFloatOfMarks rawMarks with
        | none => .error "could not convert marks value to float"
        | some marks =>
          if pyUpper (pyStripStr copt) ≠ "" then
            akNormalizeLoop rest (dictInsert acc q_num ⟨pyUpper (pyStripStr copt), marks⟩)
          else akNormalizeLoop rest acc
      | .vstr s =>
        if pyUpper (pyStripStr s) ≠ "" then
          akNormalizeLoop rest (dictInsert acc q_num ⟨pyUpper (pyStripStr s), 1⟩)
        else akNormalizeLoop rest acc
      | .vother => akNormalizeLoop rest acc

namespace AnswerKeyService

/-- `AnswerKeyService._normalize` (answer_key_service.py lines 464-500):
convert the raw parsed dict to the `AnswerKey` model
(`total_questions = len(answers)`; the provenance metadata is omitted
here), raising when no valid answers survive. -/
def normalize (raw_answers : List (PyKey × RawVal)) (negative_marking : ℚ) :
    Except String AnswerKey :=
  match akNormalizeLoop raw_answers [] with
  | .error e => .error e
  | .ok answers =>
    if answers = [] then .error "No valid answers found after normalization"
    else .ok ⟨answers.length, answers, negative_marking⟩

end AnswerKeyService

/-- Spec: an entry is a valid candidate when its question key is
integer-coercible, its marks slot (if it is a dict entry) is
float-coercible, and its value carries a non-empty (trimmed, uppercased)
option. -/
def valueOptionNonempty : RawVal → Bool
  | .vdict copt _ => pyUpper (pyStripStr copt) ≠ ""
  | .vstr s => pyUpper (pyStripStr s) ≠ ""
  | .vother => false

/-- Whether the entry's marks slot survives `float()`: always for string and
other-typed values (they never reach `float`), and per `pyFloatOfMarks` for
dict values. -/
def marksCoercible : RawVal → Bool
  | .vdict _ rawMarks => (pyFloatOfMarks rawMarks).isSome
  | .vstr _ => true
  | .vother => true

def spec_valid_entry_count (raw_answers : List (PyKey × RawVal)) : Nat :=
  (raw_answers.filter (fun kv =>
    (pyKeyToInt kv.1).isSome && marksCoercible kv.2 && valueOptionNonempty kv.2)).length

/-! # Proof development: theorems -/

/-! ### Loop invariants of the scoring fold -/

lemma scoreStep_unattempted (neg : ℚ) (sa : List (Int × String)) (st : ScoreState)
    (q : Int) (e : AnswerKeyEntry) (h : dictLookup sa q = none) :
    scoreStep neg sa st (q, e) =
      { st with max_score := st.max_score + e.marks
                unattempted_count := st.unattempted_count + 1
                details := st.details ++
                  [⟨q, none, normCorrectOf e, "unattempted", 0⟩] } := by
  unfold scoreStep normCorrectOf
  simp [h]

lemma scoreStep_multiple (neg : ℚ) (sa : List (Int × String)) (st : ScoreState)
    (q : Int) (e : AnswerKeyEntry) (h : dictLookup sa q = some "MULTIPLE") :
    scoreStep neg sa st (q, e) =
      { st with max_score := st.max_score + e.marks
                incorrect_count := st.incorrect_count + 1
                negative_deduction := st.negative_deduction + neg
                total_score := st.total_score - neg
                details := st.details ++
                  [⟨q, some "MULTIPLE", normCorrectOf e, "multiple", -neg⟩] } := by
  unfold scoreStep normCorrectOf
  simp [h]

lemma scoreStep_correct (neg : ℚ) (sa : List (Int × String)) (st : ScoreState)
    (q : Int) (e : AnswerKeyEntry) (m : String) (h : dictLookup sa q = some m)
    (hm : m ≠ "MULTIPLE") (hc : m = normCorrectOf e) :
    scoreStep neg sa st (q, e) =
      { st with max_score := st.max_score + e.marks
                correct_count := st.correct_count + 1
                total_score := st.total_score + e.marks
                details := st.details ++
                  [⟨q, some m, normCorrectOf e, "correct", e.marks⟩] } := by
  subst hc
  unfold scoreStep
  unfold normCorrectOf at hm
  simp [h, hm, normCorrectOf]

lemma scoreStep_incorrect (neg : ℚ) (sa : List (Int × String)) (st : ScoreState)
    (q : Int) (e : AnswerKeyEntry) (m : String) (h : dictLookup sa q = some m)
    (hm : m ≠ "MULTIPLE") (hc : m ≠ normCorrectOf e) :
    scoreStep neg sa st (q, e) =
      { st with max_score := st.max_score + e.marks
                incorrect_count := st.incorrect_count + 1
                negative_deduction := st.negative_deduction + neg
                total_score := st.total_score - neg
                details := st.details ++
                  [⟨q, some m, normCorrectOf e, "incorrect", -neg⟩] } := by
  unfold scoreStep
  unfold normCorrectOf at hc ⊢
  simp only [h]
  rw [if_neg hm, if_neg hc]

lemma scoreFold_total (neg : ℚ) (sa : List (Int × String))
    (l : List (Int × AnswerKeyEntry)) (st : ScoreState) :
    (l.foldl (scoreStep neg sa) st).total_score =
      st.total_score + spec_correct_marks_sum sa l - spec_penalty_sum neg sa l := by
  induction l generalizing st with
  | nil => simp [spec_correct_marks_sum, spec_penalty_sum]
  | cons kv rest ih =>
    obtain ⟨q, e⟩ := kv
    rw [List.foldl_cons, ih]
    rw [spec_correct_marks_sum, spec_penalty_sum]
    rcases h : dictLookup sa q with - | m
    · have hnc : ¬ specCorrect sa q e := by unfold specCorrect; simp [h]
      have hnp : ¬ specPenalized sa q e := by unfold specPenalized; simp [h]
      rw [scoreStep_unattempted neg sa st q e h, if_neg hnc, if_neg hnp]
      simp <;> ring
    · by_cases h1 : m = "MULTIPLE"
      · subst h1
        have hnc : ¬ specCorrect sa q e := by unfold specCorrect; simp [h]
        have hp : specPenalized sa q e := by unfold specPenalized; simp [h]
        rw [scoreStep_multiple neg sa st q e h, if_neg hnc, if_pos hp]
        simp <;> ring
      · by_cases h2 : m = normCorrectOf e
        · have hc : specCorrect sa q e := by
            unfold specCorrect
            rw [h]
            exact ⟨by simp, by simpa using h1, by rw [h2]⟩
          have hnp : ¬ specPenalized sa q e := by
            unfold specPenalized
            rw [h]
            rintro ⟨-, hbad | hbad⟩
            · exact h1 (Option.some_inj.mp hbad)
            · exact hbad (by rw [h2])
          rw [scoreStep_correct neg sa st q e m h h1 h2, if_pos hc, if_neg hnp]
          simp <;> ring
        · have hnc : ¬ specCorrect sa q e := by
            unfold specCorrect
            rw [h]
            rintro ⟨-, -, hbad⟩
            exact h2 (Option.some_inj.mp hbad)
          have hp : specPenalized sa q e := by
            unfold specPenalized
            rw [h]
            refine ⟨by simp, Or.inr fun hbad => h2 (Option.some_inj.mp hbad)⟩
          rw [scoreStep_incorrect neg sa st q e m h h1 h2, if_neg hnc, if_pos hp]
          simp <;> ring

lemma scoreFold_counts (neg : ℚ) (sa : List (Int × String))
    (l : List (Int × AnswerKeyEntry)) (st : ScoreState) :
    (l.foldl (scoreStep neg sa) st).correct_count +
      (l.foldl (scoreStep neg sa) st).incorrect_count +
      (l.foldl (scoreStep neg sa) st).unattempted_count =
      st.correct_count + st.incorrect_count + st.unattempted_count + l.length := by
  induction l generalizing st with
  | nil => simp
  | cons kv rest ih =>
    obtain ⟨q, e⟩ := kv
    rw [List.foldl_cons, ih]
    rcases h : dictLookup sa q with - | m
    · rw [scoreStep_unattempted neg sa st q e h]
      simp
      omega
    · by_cases h1 : m = "MULTIPLE"
      · subst h1
        rw [scoreStep_multiple neg sa st q e h]
        simp
        omega
      · by_cases h2 : m = normCorrectOf e
        · rw [scoreStep_correct neg sa st q e m h h1 h2]
          simp
          omega
        · rw [scoreStep_incorrect neg sa st q e m h h1 h2]
          simp
          omega

lemma scoreFold_incorrect (neg : ℚ) (sa : List (Int × String))
    (l : List (Int × AnswerKeyEntry)) (st : ScoreState) :
    (l.foldl (scoreStep neg sa) st).incorrect_count =
      st.incorrect_count + spec_incorrect_count sa l := by
  induction l generalizing st with
  | nil => simp [spec_incorrect_count]
  | cons kv rest ih =>
    obtain ⟨q, e⟩ := kv
    rw [List.foldl_cons, ih, spec_incorrect_count]
    rcases h : dictLookup sa q with - | m
    · have hnp : ¬ specPenalized sa q e := by unfold specPenalized; simp [h]
      rw [scoreStep_unattempted neg sa st q e h, if_neg hnp]
      simp
    · by_cases h1 : m = "MULTIPLE"
      · subst h1
        have hp : specPenalized sa q e := by unfold specPenalized; simp [h]
        rw [scoreStep_multiple neg sa st q e h, if_pos hp]
        simp
        omega
      · by_cases h2 : m = normCorrectOf e
        · have hnp : ¬ specPenalized sa q e := by
            unfold specPenalized
            rw [h]
            rintro ⟨-, hbad | hbad⟩
            · exact h1 (Option.some_inj.mp hbad)
            · exact hbad (by rw [h2])
          rw [scoreStep_correct neg sa st q e m h h1 h2, if_neg hnp]
          simp
        · have hp : specPenalized sa q e := by
            unfold specPenalized
            rw [h]
            refine ⟨by simp, Or.inr fun hbad => h2 (Option.some_inj.mp hbad)⟩
          rw [scoreStep_incorrect neg sa st q e m h h1 h2, if_pos hp]
          simp
          omega

/-! ## Claims about the scoring engine -/

/-- C1: for every answer key and student-answers input, the total score
returned by `EvaluationService.match_and_score` equals
`max(0, Σ(marks for correct) − Σ(negative_marking for incorrect/multiple))`
over the key's questions; in particular it is never negative. -/
theorem match_and_score_total_score (ak : AnswerKey) (inp : StudentAnswers) :
    (EvaluationService.match_and_score ak inp).total_score =
      max 0 (spec_correct_marks_sum (normalize_student_answers inp.answers) ak.answers -
             spec_penalty_sum ak.negative_marking
               (normalize_student_answers inp.answers) ak.answers) ∧
    0 ≤ (EvaluationService.match_and_score ak inp).total_score := by
  unfold EvaluationService.match_and_score
  simp only
  rw [scoreFold_total]
  constructor
  · simp [max_comm]
  · exact le_max_right _ 0

/-- C2: when the key's `total_questions` equals the number of entries of its
`answers` map, the three outcome counters of `match_and_score` sum to
`total_questions`, and a question marked with the `MULTIPLE` sentinel is
counted in `incorrect_count`. -/
theorem match_and_score_count_invariant (ak : AnswerKey) (inp : StudentAnswers)
    (hkeys : (ak.answers.map Prod.fst).Nodup)
    (ht : ak.total_questions = ak.answers.length) :
    (EvaluationService.match_and_score ak inp).correct_count +
      (EvaluationService.match_and_score ak inp).incorrect_count +
      (EvaluationService.match_and_score ak inp).unattempted_count =
      ak.total_questions ∧
    (EvaluationService.match_and_score ak inp).incorrect_count =
      spec_incorrect_count (normalize_student_answers inp.answers) ak.answers := by
  unfold EvaluationService.match_and_score
  simp only
  constructor
  · rw [scoreFold_counts, ht]
    simp
  · rw [scoreFold_incorrect]
    simp

/-- Witness for C2 at a concrete key and answer sheet. -/
theorem match_and_score_count_invariant_witness :
    (([( (1 : Int), AnswerKeyEntry.mk "A" 1), (2, ⟨"B", 1⟩)].map Prod.fst).Nodup) ∧
    ((AnswerKey.mk 2 [(1, ⟨"A", 1⟩), (2, ⟨"B", 1⟩)] (1/2)).total_questions =
      [((1 : Int), AnswerKeyEntry.mk "A" 1), (2, ⟨"B", 1⟩)].length) ∧
    ((EvaluationService.match_and_score
        (AnswerKey.mk 2 [(1, ⟨"A", 1⟩), (2, ⟨"B", 1⟩)] (1/2))
        (StudentAnswers.mk "e1" "n1" [(.pint 1, "MULTIPLE")])).correct_count +
      (EvaluationService.match_and_score
        (AnswerKey.mk 2 [(1, ⟨"A", 1⟩), (2, ⟨"B", 1⟩)] (1/2))
        (StudentAnswers.mk "e1" "n1" [(.pint 1, "MULTIPLE")])).incorrect_count +
      (EvaluationService.match_and_score
        (AnswerKey.mk 2 [(1, ⟨"A", 1⟩), (2, ⟨"B", 1⟩)] (1/2))
        (StudentAnswers.mk "e1" "n1" [(.pint 1, "MULTIPLE")])).unattempted_count =
      (AnswerKey.mk 2 [(1, ⟨"A", 1⟩), (2, ⟨"B", 1⟩)] (1/2)).total_questions) := by
  refine ⟨by decide, by decide, ?_⟩
  exact (match_and_score_count_invariant
    (AnswerKey.mk 2 [(1, ⟨"A", 1⟩), (2, ⟨"B", 1⟩)] (1/2))
    (StudentAnswers.mk "e1" "n1" [(.pint 1, "MULTIPLE")])
    (by decide) (by decide)).1

/-! ### Character-level facts used for the idempotence analysis -/

lemma upChar_toNat_of_lower {c : Char} (h : 97 ≤ c.toNat ∧ c.toNat ≤ 122) :
    (upChar c).toNat = c.toNat - 32 := by
  unfold upChar
  rw [dif_pos h]
  rfl

lemma upChar_of_not_lower {c : Char} (h : ¬ (97 ≤ c.toNat ∧ c.toNat ≤ 122)) :
    upChar c = c := dif_neg h

lemma isPyWS_eq_false_of_ge {c : Char} (h : 48 ≤ c.toNat) : isPyWS c = false := by
  unfold isPyWS
  have h32 : c ≠ ' ' := fun he => absurd h (by subst he; decide)
  have h9 : c ≠ '\t' := fun he => absurd h (by subst he; decide)
  have h10 : c ≠ '\n' := fun he => absurd h (by subst he; decide)
  have h13 : c ≠ '\r' := fun he => absurd h (by subst he; decide)
  have h11 : c ≠ '\x0b' := fun he => absurd h (by subst he; decide)
  have h12 : c ≠ '\x0c' := fun he => absurd h (by subst he; decide)
  simp [h32, h9, h10, h13, h11, h12]

lemma isPyWS_of_digit {c : Char} (h : isAsciiDigit c = true) : isPyWS c = false := by
  unfold isAsciiDigit at h
  simp only [Bool.and_eq_true, decide_eq_true_eq] at h
  exact isPyWS_eq_false_of_ge h.1

lemma isPyWS_of_alpha {c : Char} (h : isAsciiAlpha c = true) : isPyWS c = false := by
  unfold isAsciiAlpha at h
  simp only [Bool.or_eq_true, Bool.and_eq_true, decide_eq_true_eq] at h
  rcases h with h | h
  · exact isPyWS_eq_false_of_ge (by omega)
  · exact isPyWS_eq_false_of_ge (by omega)

lemma isAsciiAlpha_upChar {c : Char} (h : isAsciiAlpha c = true) :
    65 ≤ (upChar c).toNat ∧ (upChar c).toNat ≤ 90 := by
  unfold isAsciiAlpha at h
  simp only [Bool.or_eq_true, Bool.and_eq_true, decide_eq_true_eq] at h
  rcases h with h | h
  · rw [upChar_of_not_lower (by omega)]
    exact h
  · rw [upChar_toNat_of_lower h]
    omega

lemma upChar_of_upper {c : Char} (h : 65 ≤ c.toNat ∧ c.toNat ≤ 90) :
    upChar c = c := upChar_of_not_lower (by omega)

lemma isAsciiAlpha_of_upper {c : Char} (h : 65 ≤ c.toNat ∧ c.toNat ≤ 90) :
    isAsciiAlpha c = true := by
  unfold isAsciiAlpha
  simp only [Bool.or_eq_true, Bool.and_eq_true, decide_eq_true_eq]
  exact Or.inl h

lemma isAsciiDigit_not_alpha {c : Char} (h : isAsciiDigit c = true) :
    isAsciiAlpha c = false := by
  unfold isAsciiDigit at h
  unfold isAsciiAlpha
  simp only [Bool.and_eq_true, decide_eq_true_eq] at h
  simp only [Bool.or_eq_false_iff, Bool.and_eq_false_iff, decide_eq_false_iff_not]
  omega

/-! ### List helpers for reading off the anchored match -/

lemma takeWhile_all_append {p : Char → Bool} {xs ys : List Char}
    (hx : ∀ x ∈ xs, p x = true)
    (hy : ∀ c cs, ys = c :: cs → p c = false) :
    (xs ++ ys).takeWhile p = xs := by
  induction xs with
  | nil =>
    simp only [List.nil_append]
    cases ys with
    | nil => simp
    | cons c cs => simp [List.takeWhile_cons, hy c cs rfl]
  | cons x xs ih =>
    simp only [List.cons_append, List.takeWhile_cons, hx x (by simp)]
    rw [ih (fun z hz => hx z (by simp [hz]))]
    simp

lemma dropWhile_all_append {p : Char → Bool} {xs ys : List Char}
    (hx : ∀ x ∈ xs, p x = true)
    (hy : ∀ c cs, ys = c :: cs → p c = false) :
    (xs ++ ys).dropWhile p = ys := by
  induction xs with
  | nil =>
    simp only [List.nil_append]
    cases ys with
    | nil => simp
    | cons c cs => simp [List.dropWhile_cons, hy c cs rfl]
  | cons x xs ih =>
    simp only [List.cons_append, List.dropWhile_cons, hx x (by simp)]
    exact ih (fun z hz => hx z (by simp [hz]))

lemma dropWhile_nil_of_head {p : Char → Bool} {ys : List Char}
    (hy : ∀ c cs, ys = c :: cs → p c = false) :
    ys.dropWhile p = ys := by
  cases ys with
  | nil => simp
  | cons c cs => simp [List.dropWhile_cons, hy c cs rfl]

/-- What an anchored match tells us about its three groups. -/
lemma matchTripleAt_spec {cs y b n : List Char}
    (h : matchTripleAt cs = some (y, b, n)) :
    y.length = 4 ∧ (∀ c ∈ y, isAsciiDigit c = true) ∧
    2 ≤ b.length ∧ b.length ≤ 4 ∧ (∀ c ∈ b, isAsciiAlpha c = true) ∧
    2 ≤ n.length ∧ n.length ≤ 5 ∧ (∀ c ∈ n, isAsciiDigit c = true) := by
  unfold matchTripleAt at h
  by_cases h1 : (cs.take 4).length = 4 ∧ (cs.take 4).all isAsciiDigit
  · rw [if_pos h1] at h
    by_cases h2 : 2 ≤ (tripleLetters cs).length ∧ (tripleLetters cs).length ≤ 4
    · rw [if_pos h2] at h
      by_cases h3 : 2 ≤ (tripleDigits cs).length
      · rw [if_pos h3] at h
        injection h with h
        injection h with hy h
        injection h with hb hn
        subst hy; subst hb; subst hn
        refine ⟨h1.1, ?_, h2.1, h2.2, ?_, h3, ?_, ?_⟩
        · intro c hc
          exact List.all_eq_true.mp h1.2 c hc
        · intro c hc
          exact List.mem_takeWhile_imp hc
        · unfold tripleDigits
          exact List.length_take_le 5 _
        · intro c hc
          unfold tripleDigits at hc
          exact List.mem_takeWhile_imp (List.take_subset _ _ hc)
      · rw [if_neg h3] at h; exact absurd h (by simp)
    · rw [if_neg h2] at h; exact absurd h (by simp)
  · rw [if_neg h1] at h; exact absurd h (by simp)

/-- An anchored match at the very shape produced by the normalizer:
4 digits, then 2-4 uppercase letters, then 2-5 digits with nothing after. -/
lemma matchTripleAt_canonical {y B n : List Char}
    (hy4 : y.length = 4) (hyd : ∀ c ∈ y, isAsciiDigit c = true)
    (hb2 : 2 ≤ B.length) (hb4 : B.length ≤ 4)
    (hbu : ∀ c ∈ B, 65 ≤ c.toNat ∧ c.toNat ≤ 90)
    (hn2 : 2 ≤ n.length) (hn5 : n.length ≤ 5)
    (hnd : ∀ c ∈ n, isAsciiDigit c = true) :
    matchTripleAt (y ++ B ++ n) = some (y, B, n) := by
  have hBne : B ≠ [] := by
    cases B with
    | nil => simp at hb2
    | cons c cs => simp
  have hnne : n ≠ [] := by
    cases n with
    | nil => simp at hn2
    | cons c cs => simp
  have hBhead : ∀ c cs, B = c :: cs → isPyWS c = false := by
    intro c cs hB
    exact isPyWS_of_alpha (isAsciiAlpha_of_upper (hbu c (by simp [hB])))
  have hnheadWS : ∀ c cs, n = c :: cs → isPyWS c = false := by
    intro c cs hn
    exact isPyWS_of_digit (hnd c (by simp [hn]))
  have hnheadAl : ∀ c cs, n = c :: cs → isAsciiAlpha c = false := by
    intro c cs hn
    exact isAsciiDigit_not_alpha (hnd c (by simp [hn]))
  have htake : (y ++ B ++ n).take 4 = y := by
    rw [List.append_assoc]; exact List.take_left' hy4
  have hdrop : (y ++ B ++ n).drop 4 = B ++ n := by
    rw [List.append_assoc]; exact List.drop_left' hy4
  have hBn1 : (B ++ n).dropWhile isPyWS = B ++ n := by
    apply dropWhile_nil_of_head
    intro c cs hBn
    cases B with
    | nil => exact absurd rfl hBne
    | cons b0 bs =>
      simp only [List.cons_append] at hBn
      injection hBn with h1 _
      subst h1
      exact hBhead b0 bs rfl
  have hBtake : (B ++ n).takeWhile isAsciiAlpha = B :=
    takeWhile_all_append
      (fun x hx => isAsciiAlpha_of_upper (hbu x hx)) hnheadAl
  have hBdrop : (B ++ n).dropWhile isAsciiAlpha = n :=
    dropWhile_all_append
      (fun x hx => isAsciiAlpha_of_upper (hbu x hx)) hnheadAl
  have hntake : n.takeWhile isAsciiDigit = n := by
    have h0 : (n ++ ([] : List Char)).takeWhile isAsciiDigit = n :=
      takeWhile_all_append hnd (fun c cs h => by simp at h)
    simpa using h0
  have hlets : tripleLetters (y ++ B ++ n) = B := by
    unfold tripleLetters
    rw [hdrop, hBn1, hBtake]
  have hdigs : tripleDigits (y ++ B ++ n) = n := by
    unfold tripleDigits
    rw [hdrop, hBn1, hBdrop, dropWhile_nil_of_head hnheadWS, hntake,
      List.take_of_length_le hn5]
  unfold matchTripleAt
  rw [htake, hlets, hdigs]
  rw [if_pos ⟨hy4, List.all_eq_true.mpr hyd⟩, if_pos ⟨hb2, hb4⟩, if_pos hn2]

/-- `findTriple` on the canonical shape matches at position zero. -/
lemma findTriple_canonical {y B n : List Char}
    (hy4 : y.length = 4) (hyd : ∀ c ∈ y, isAsciiDigit c = true)
    (hb2 : 2 ≤ B.length) (hb4 : B.length ≤ 4)
    (hbu : ∀ c ∈ B, 65 ≤ c.toNat ∧ c.toNat ≤ 90)
    (hn2 : 2 ≤ n.length) (hn5 : n.length ≤ 5)
    (hnd : ∀ c ∈ n, isAsciiDigit c = true) :
    findTriple (y ++ B ++ n) = some (y, B, n) := by
  have hm := matchTripleAt_canonical hy4 hyd hb2 hb4 hbu hn2 hn5 hnd
  cases y with
  | nil => simp at hy4
  | cons c ys =>
    simp only [List.cons_append] at hm ⊢
    unfold findTriple
    rw [hm]

/-- Any successful search satisfies the anchored-match group facts. -/
lemma findTriple_spec {cs y b n : List Char}
    (h : findTriple cs = some (y, b, n)) :
    y.length = 4 ∧ (∀ c ∈ y, isAsciiDigit c = true) ∧
    2 ≤ b.length ∧ b.length ≤ 4 ∧ (∀ c ∈ b, isAsciiAlpha c = true) ∧
    2 ≤ n.length ∧ n.length ≤ 5 ∧ (∀ c ∈ n, isAsciiDigit c = true) := by
  induction cs with
  | nil => simp [findTriple] at h
  | cons c cs ih =>
    unfold findTriple at h
    cases hm : matchTripleAt (c :: cs) with
    | some r =>
      rw [hm] at h
      injection h with h
      subst h
      exact matchTripleAt_spec hm
    | none =>
      rw [hm] at h
      exact ih h

lemma pyStrip_eq_self {cs : List Char}
    (h1 : ∀ c cs', cs = c :: cs' → isPyWS c = false)
    (h2 : ∀ c cs', cs.reverse = c :: cs' → isPyWS c = false) :
    pyStrip cs = cs := by
  unfold pyStrip
  rw [dropWhile_nil_of_head h1, dropWhile_nil_of_head h2, List.reverse_reverse]

/-- C5 counterexample: the identifier normalizer is not idempotent.
`"un-known"` normalizes (via the fallback tier) to `"UNKNOWN"`, but
re-normalizing `"UNKNOWN"` hits the placeholder check and yields `null`. -/
theorem normalize_entry_number_not_idempotent :
    SheetsService.normalize_entry_number "un-known" = some "UNKNOWN" ∧
    SheetsService.normalize_entry_number "UNKNOWN" = none := by
  constructor
  · decide
  · decide

/-- C5 (amended): the normalizer is idempotent on every input accepted via
the structural `(\d{4})\s*([A-Za-z]{2,4})\s*(\d{2,5})` pattern tier:
re-normalizing such a result returns it unchanged.  (Fallback-tier results
need not be fixed points, as the counterexample shows.) -/
theorem normalize_entry_number_structural_idem (raw : String) (y b n : List Char)
    (hfind : findTriple (pyStrip raw.data) = some (y, b, n))
    (s : String) (hs : SheetsService.normalize_entry_number raw = some s) :
    SheetsService.normalize_entry_number s = some s := by
  obtain ⟨hy4, hyd, hb2, hb4, hba, hn2, hn5, hnd⟩ := findTriple_spec hfind
  -- the shape of the returned string
  unfold SheetsService.normalize_entry_number at hs
  by_cases hpl : raw = "" ∨ pyLower raw ∈ ["unknown", "none", "n/a", ""]
  · rw [if_pos hpl] at hs
    exact absurd hs (by simp)
  · rw [if_neg hpl, hfind] at hs
    have hsval : s = String.mk (y ++ b.map upChar ++ n) := by
      injection hs with hs
      exact hs.symm
    have hsdata : s.data = y ++ b.map upChar ++ n := by rw [hsval]
    -- facts about B := b.map upChar
    have hBlen : (b.map upChar).length = b.length := List.length_map b upChar
    have hBu : ∀ c ∈ b.map upChar, 65 ≤ c.toNat ∧ c.toNat ≤ 90 := by
      intro c hc
      obtain ⟨x, hx, hxc⟩ := List.mem_map.mp hc
      subst hxc
      exact isAsciiAlpha_upChar (hba x hx)
    have hBne : b.map upChar ≠ [] := by
      intro hbad
      rw [hbad] at hBlen
      simp at hBlen
      omega
    -- every character of s is a digit or an uppercase letter, hence not
    -- whitespace and not stripped
    have hmem : ∀ c ∈ s.data, isPyWS c = false := by
      intro c hc
      rw [hsdata] at hc
      rcases List.mem_append.mp hc with hc2 | hcn
      · rcases List.mem_append.mp hc2 with hcy | hcb
        · exact isPyWS_of_digit (hyd c hcy)
        · exact isPyWS_of_alpha (isAsciiAlpha_of_upper (hBu c hcb))
      · exact isPyWS_of_digit (hnd c hcn)
    have hstrip : pyStrip s.data = s.data := by
      apply pyStrip_eq_self
      · intro c cs' heq
        exact hmem c (by rw [heq]; simp)
      · intro c cs' heq
        have : c ∈ s.data.reverse := by rw [heq]; simp
        exact hmem c (List.mem_reverse.mp this)
    -- the length of s rules the placeholder tier out
    have hslen : 8 ≤ s.data.length := by
      rw [hsdata]
      simp only [List.length_append, hBlen]
      omega
    have hpl2 : ¬ (s = "" ∨ pyLower s ∈ ["unknown", "none", "n/a", ""]) := by
      rintro (h0 | hm)
      · rw [h0] at hslen
        simp [String.data] at hslen
      · have hlow : (pyLower s).data.length = s.data.length := by
          unfold pyLower
          simp
        simp only [List.mem_cons, List.not_mem_nil, or_false] at hm
        rcases hm with he | he | he | he
        · rw [he, show ("unknown" : String).data.length = 7 from rfl] at hlow
          omega
        · rw [he, show ("none" : String).data.length = 4 from rfl] at hlow
          omega
        · rw [he, show ("n/a" : String).data.length = 3 from rfl] at hlow
          omega
        · rw [he, show ("" : String).data.length = 0 from rfl] at hlow
          omega
    -- re-normalization takes the structural tier with the same groups
    unfold SheetsService.normalize_entry_number
    rw [if_neg hpl2, hstrip, hsdata,
      findTriple_canonical hy4 hyd (by omega) (by omega) hBu hn2 hn5 hnd]
    have hfix : (b.map upChar).map upChar = b.map upChar := by
      have h1 : (b.map upChar).map upChar = (b.map upChar).map id :=
        List.map_congr_left (fun c hc => upChar_of_upper (hBu c hc))
      rw [h1, List.map_id]
    show some (String.mk (y ++ (b.map upChar).map upChar ++ n)) = some s
    rw [hfix, ← hsdata]

/-- Witness for the amended C5 at `"2023 csb 1122"`. -/
theorem normalize_entry_number_structural_idem_witness :
    findTriple (pyStrip ("2023 csb 1122" : String).data) =
      some (['2', '0', '2', '3'], ['c', 's', 'b'], ['1', '1', '2', '2']) ∧
    SheetsService.normalize_entry_number "2023 csb 1122" = some "2023CSB1122" ∧
    SheetsService.normalize_entry_number "2023CSB1122" = some "2023CSB1122" :=
  ⟨by decide, by decide,
   normalize_entry_number_structural_idem "2023 csb 1122"
     ['2', '0', '2', '3'] ['c', 's', 'b'] ['1', '1', '2', '2']
     (by decide) "2023CSB1122" (by decide)⟩

lemma check_name_mismatch_eq_none_iff (a b e : String) (r : Nat) :
    SheetsService.check_name_mismatch a b e r = none ↔ namesMatchCond a b := by
  unfold SheetsService.check_name_mismatch
  split_ifs with h
  · simpa using h
  · simpa using h

lemma namesMatchCond_comm (a b : String) :
    namesMatchCond a b ↔ namesMatchCond b a := by
  unfold namesMatchCond
  constructor <;>
    · rintro (h | h | h | h | h | h | h | ⟨w, hw1, hw2⟩ | h | h |
        ⟨w, hw1, hw2⟩ | ⟨w, hw1, hw2⟩)
      · exact Or.inr (Or.inl h)
      · exact Or.inl h
      · exact Or.inr (Or.inr (Or.inr (Or.inl h)))
      · exact Or.inr (Or.inr (Or.inl h))
      · exact Or.inr (Or.inr (Or.inr (Or.inr (Or.inr (Or.inl h)))))
      · exact Or.inr (Or.inr (Or.inr (Or.inr (Or.inl h))))
      · exact Or.inr (Or.inr (Or.inr (Or.inr (Or.inr (Or.inr (Or.inl h.symm))))))
      · exact Or.inr (Or.inr (Or.inr (Or.inr (Or.inr (Or.inr (Or.inr
          (Or.inl ⟨w, hw2, hw1⟩)))))))
      · exact Or.inr (Or.inr (Or.inr (Or.inr (Or.inr (Or.inr (Or.inr
          (Or.inr (Or.inr (Or.inl h)))))))))
      · exact Or.inr (Or.inr (Or.inr (Or.inr (Or.inr (Or.inr (Or.inr
          (Or.inr (Or.inl h))))))))
      · exact Or.inr (Or.inr (Or.inr (Or.inr (Or.inr (Or.inr (Or.inr
          (Or.inr (Or.inr (Or.inr (Or.inr ⟨w, hw1, hw2⟩))))))))))
      · exact Or.inr (Or.inr (Or.inr (Or.inr (Or.inr (Or.inr (Or.inr
          (Or.inr (Or.inr (Or.inr (Or.inl ⟨w, hw1, hw2⟩))))))))))

/-- C10: name-mismatch detection is symmetric in match outcome: swapping the
two name arguments (for any entry numbers and rows) does not change whether
`_check_name_mismatch` reports a match (`none`). -/
theorem check_name_mismatch_symmetric (a b e1 e2 : String) (r1 r2 : Nat) :
    SheetsService.check_name_mismatch a b e1 r1 = none ↔
    SheetsService.check_name_mismatch b a e2 r2 = none := by
  rw [check_name_mismatch_eq_none_iff, check_name_mismatch_eq_none_iff]
  exact namesMatchCond_comm a b

/-- C9: `_detect_columns` on `["Roll No","Name","Total","Q1","Q2","Remarks"]`
assigns identifier → 0, name → 1, marks → 2, comments → 5 and the question
bucket `{1: 3, 2: 4}`. -/
theorem detect_columns_example :
    (SheetsService.detect_columns
        ["Roll No", "Name", "Total", "Q1", "Q2", "Remarks"]).entry_number.map
      ColRef.index = some 0 ∧
    (SheetsService.detect_columns
        ["Roll No", "Name", "Total", "Q1", "Q2", "Remarks"]).name.map
      ColRef.index = some 1 ∧
    (SheetsService.detect_columns
        ["Roll No", "Name", "Total", "Q1", "Q2", "Remarks"]).marks.map
      ColRef.index = some 2 ∧
    (SheetsService.detect_columns
        ["Roll No", "Name", "Total", "Q1", "Q2", "Remarks"]).comments.map
      ColRef.index = some 5 ∧
    (SheetsService.detect_columns
        ["Roll No", "Name", "Total", "Q1", "Q2", "Remarks"]).questions.map
      (fun p => (p.1, p.2.index)) = [(1, 3), (2, 4)] := by
  decide

/-! ### C3: the `not_found_in_sheet` diagnostic -/

/-- C3: `update_marks` never records any result in `not_found_in_sheet`: on a
roster with no rows at all and one result whose entry number normalizes
perfectly, the returned summary still has `not_found_in_sheet = []` (the list
is initialized and never appended to), where the claim requires
`["2023CSB1122"]`. -/
theorem update_marks_not_found_in_sheet_stays_empty :
    SheetsService.update_marks_plan "Sheet1"
        ⟨some ⟨0, "A", "Roll No"⟩, some ⟨1, "B", "Name"⟩, some ⟨2, "C", "Total"⟩,
          none, []⟩
        [] [⟨"2023CSB1122", "Harsh Modi", "", 5, []⟩] =
      Except.ok ([], ⟨0, [], [], [], []⟩) ∧
    SheetsService.normalize_entry_number (pyStripStr "2023CSB1122") =
      some "2023CSB1122" := by
  constructor
  · rfl
  · decide

/-! ### C4: what the `updated` counter counts -/

lemma idMatchList_cons_none {rmap st rest}
    (hn : SheetsService.normalize_entry_number st.entry_number = none) :
    idMatchList rmap (st :: rest) = idMatchList rmap rest := by
  unfold idMatchList
  rw [List.filterMap_cons, hn]

lemma idMatchList_cons_hit {rmap st rest n}
    (hn : SheetsService.normalize_entry_number st.entry_number = some n)
    (hl : dictLookup rmap n ≠ none) :
    idMatchList rmap (st :: rest) = n :: idMatchList rmap rest := by
  unfold idMatchList
  rw [List.filterMap_cons, hn]
  rw [List.filter_cons]
  simp [hl]

lemma idMatchList_cons_miss {rmap st rest n}
    (hn : SheetsService.normalize_entry_number st.entry_number = some n)
    (hl : dictLookup rmap n = none) :
    idMatchList rmap (st :: rest) = idMatchList rmap rest := by
  unfold idMatchList
  rw [List.filterMap_cons, hn]
  rw [List.filter_cons]
  simp [hl]

lemma classify_skip_inv {results rmap st}
    (h : classifyStudent results rmap st = .skip) :
    SheetsService.normalize_entry_number st.entry_number = none := by
  unfold classifyStudent at h
  cases hn : SheetsService.normalize_entry_number st.entry_number with
  | none => rfl
  | some n =>
    rw [hn] at h
    dsimp only at h
    cases hl : dictLookup rmap n with
    | some r =>
      rw [hl] at h
      dsimp only at h
      exact absurd h (by simp)
    | none =>
      rw [hl] at h
      dsimp only at h
      cases hf : (if pyLower (pyStripStr st.name) ≠ "" then
          results.find? (nameMatchPred (pyLower (pyStripStr st.name)))
        else none) with
      | some r =>
        rw [hf] at h
        dsimp only at h
        exact absurd h (by simp)
      | none =>
        rw [hf] at h
        dsimp only at h
        exact absurd h (by simp)

lemma classify_byId_inv {results rmap st n r}
    (h : classifyStudent results rmap st = .byId n r) :
    SheetsService.normalize_entry_number st.entry_number = some n ∧
      dictLookup rmap n = some r := by
  unfold classifyStudent at h
  cases hn : SheetsService.normalize_entry_number st.entry_number with
  | none =>
    rw [hn] at h
    dsimp only at h
    exact absurd h (by simp)
  | some n' =>
    rw [hn] at h
    dsimp only at h
    cases hl : dictLookup rmap n' with
    | some r' =>
      rw [hl] at h
      dsimp only at h
      cases h
      exact ⟨rfl, hl⟩
    | none =>
      rw [hl] at h
      dsimp only at h
      cases hf : (if pyLower (pyStripStr st.name) ≠ "" then
          results.find? (nameMatchPred (pyLower (pyStripStr st.name)))
        else none) with
      | some r' =>
        rw [hf] at h
        dsimp only at h
        exact absurd h (by simp)
      | none =>
        rw [hf] at h
        dsimp only at h
        exact absurd h (by simp)

lemma classify_byName_inv {results rmap st r}
    (h : classifyStudent results rmap st = .byName r) :
    ∃ n, SheetsService.normalize_entry_number st.entry_number = some n ∧
      dictLookup rmap n = none := by
  unfold classifyStudent at h
  cases hn : SheetsService.normalize_entry_number st.entry_number with
  | none =>
    rw [hn] at h
    dsimp only at h
    exact absurd h (by simp)
  | some n' =>
    rw [hn] at h
    dsimp only at h
    cases hl : dictLookup rmap n' with
    | some r' =>
      rw [hl] at h
      dsimp only at h
      exact absurd h (by simp)
    | none => exact ⟨n', rfl, hl⟩

lemma classify_unmatched_inv {results rmap st}
    (h : classifyStudent results rmap st = .unmatchedRow) :
    ∃ n, SheetsService.normalize_entry_number st.entry_number = some n ∧
      dictLookup rmap n = none := by
  unfold classifyStudent at h
  cases hn : SheetsService.normalize_entry_number st.entry_number with
  | none =>
    rw [hn] at h
    dsimp only at h
    exact absurd h (by simp)
  | some n' =>
    rw [hn] at h
    dsimp only at h
    cases hl : dictLookup rmap n' with
    | some r' =>
      rw [hl] at h
      dsimp only at h
      exact absurd h (by simp)
    | none => exact ⟨n', rfl, hl⟩

lemma insertIfNew_toFinset (n : String) (matched : List String) :
    (if n ∈ matched then matched else matched ++ [n]).toFinset =
      insert n matched.toFinset := by
  by_cases h : n ∈ matched
  · rw [if_pos h]
    exact (Finset.insert_eq_self.mpr (List.mem_toFinset.mpr h)).symm
  · rw [if_neg h, List.toFinset_append]
    simp only [List.toFinset_cons, List.toFinset_nil, insert_emptyc_eq]
    rw [Finset.union_comm, ← Finset.insert_eq]

lemma insertIfNew_nodup {n : String} {matched : List String} (h : matched.Nodup) :
    (if n ∈ matched then matched else matched ++ [n]).Nodup := by
  by_cases hm : n ∈ matched
  · rw [if_pos hm]; exact h
  · rw [if_neg hm]
    simp [List.nodup_append, h, hm]

lemma processStudents_matched_toFinset (sn : String) (mc : ColRef)
    (cl : Option String) (qc : List (Int × ColRef)) (results : List RResult)
    (rmap : List (String × RResult)) (students : List RosterStudent)
    (matched : List String) :
    (processStudents sn mc cl qc results rmap matched students).matched.toFinset =
      matched.toFinset ∪ (idMatchList rmap students).toFinset := by
  induction students generalizing matched with
  | nil => simp [processStudents, idMatchList]
  | cons st rest ih =>
    rw [processStudents]
    cases hcl : classifyStudent results rmap st with
    | skip =>
      rw [idMatchList_cons_none (classify_skip_inv hcl)]
      exact ih matched
    | byId n r =>
      obtain ⟨hn, hl⟩ := classify_byId_inv hcl
      rw [idMatchList_cons_hit hn (by rw [hl]; simp)]
      simp only
      rw [ih, insertIfNew_toFinset, List.toFinset_cons,
        Finset.insert_union, Finset.union_insert]
    | byName r =>
      obtain ⟨n, hn, hl⟩ := classify_byName_inv hcl
      rw [idMatchList_cons_miss hn hl]
      simp only
      exact ih matched
    | unmatchedRow =>
      obtain ⟨n, hn, hl⟩ := classify_unmatched_inv hcl
      rw [idMatchList_cons_miss hn hl]
      simp only
      exact ih matched

lemma processStudents_matched_nodup (sn : String) (mc : ColRef)
    (cl : Option String) (qc : List (Int × ColRef)) (results : List RResult)
    (rmap : List (String × RResult)) (students : List RosterStudent)
    (matched : List String) (h : matched.Nodup) :
    (processStudents sn mc cl qc results rmap matched students).matched.Nodup := by
  induction students generalizing matched with
  | nil => simpa [processStudents]
  | cons st rest ih =>
    rw [processStudents]
    cases hcl : classifyStudent results rmap st with
    | skip => exact ih matched h
    | byId n r => exact ih _ (insertIfNew_nodup h)
    | byName r => exact ih matched h
    | unmatchedRow => exact ih matched h

lemma processStudents_writes_nil (sn : String) (mc : ColRef)
    (cl : Option String) (qc : List (Int × ColRef)) (results : List RResult)
    (rmap : List (String × RResult)) (students : List RosterStudent)
    (matched : List String)
    (h : (processStudents sn mc cl qc results rmap matched students).writes = []) :
    (processStudents sn mc cl qc results rmap matched students).matched = matched := by
  induction students generalizing matched with
  | nil => simp [processStudents]
  | cons st rest ih =>
    rw [processStudents] at h ⊢
    cases hcl : classifyStudent results rmap st with
    | skip =>
      rw [hcl] at h
      exact ih matched h
    | byId n r =>
      rw [hcl] at h
      simp only [writesForStudent, List.singleton_append, List.cons_append] at h
      exact absurd h (by simp)
    | byName r =>
      rw [hcl] at h
      simp only [writesForStudent, List.singleton_append, List.cons_append] at h
      exact absurd h (by simp)
    | unmatchedRow =>
      rw [hcl] at h
      exact ih matched h

/-- C4 (amended): the `updated` field of a successful `update_marks` summary
equals the number of distinct normalized identifiers matched via the
identifier-normalization path; roster rows matched only by the name
fallback are written but not counted. -/
theorem update_marks_updated_counts_id_matched (sn : String) (cols : Columns)
    (students : List RosterStudent) (results : List RResult)
    (p : List CellWrite × UpdateSummary)
    (h : SheetsService.update_marks_plan sn cols students results = .ok p) :
    p.2.updated = spec_id_matched_count students results := by
  unfold SheetsService.update_marks_plan at h
  cases hm : cols.marks with
  | none => rw [hm] at h; exact absurd h (by simp)
  | some marksCol =>
    rw [hm] at h
    simp only at h
    injection h with h
    subst h
    simp only
    have hfin := processStudents_matched_toFinset sn marksCol
      (cols.comments.map ColRef.letter) cols.questions results
      (buildResultsMap results) students []
    simp only [List.toFinset_nil, Finset.empty_union] at hfin
    by_cases hw : (processStudents sn marksCol (cols.comments.map ColRef.letter)
        cols.questions results (buildResultsMap results) [] students).writes = []
    · rw [if_pos hw]
      have hmat := processStudents_writes_nil sn marksCol
        (cols.comments.map ColRef.letter) cols.questions results
        (buildResultsMap results) students [] hw
      rw [hmat] at hfin
      unfold spec_id_matched_count
      rw [← hfin]
      simp
    · rw [if_neg hw]
      have hnd := processStudents_matched_nodup sn marksCol
        (cols.comments.map ColRef.letter) cols.questions results
        (buildResultsMap results) students [] (by simp)
      unfold spec_id_matched_count
      rw [← hfin, List.toFinset_card_of_nodup hnd]

/-- Witness for the amended C4 at one identifier-matched row. -/
theorem update_marks_updated_counts_id_matched_witness :
    SheetsService.update_marks_plan "S" ⟨none, none, some ⟨0, "A", "Total"⟩, none, []⟩
        [⟨2, "2023csb1122", "", ""⟩] [⟨"2023CSB1122", "", "", 3, []⟩] =
      Except.ok ([⟨"S", "A", 2, .num 3⟩], ⟨1, [], [], [], []⟩) ∧
    ((([⟨"S", "A", 2, CellVal.num 3⟩], ⟨1, [], [], [], []⟩) :
        List CellWrite × UpdateSummary).2.updated =
      spec_id_matched_count [⟨2, "2023csb1122", "", ""⟩]
        [⟨"2023CSB1122", "", "", 3, []⟩]) :=
  ⟨by rfl,
   update_marks_updated_counts_id_matched "S"
     ⟨none, none, some ⟨0, "A", "Total"⟩, none, []⟩
     [⟨2, "2023csb1122", "", ""⟩] [⟨"2023CSB1122", "", "", 3, []⟩]
     ([⟨"S", "A", 2, .num 3⟩], ⟨1, [], [], [], []⟩) (by rfl)⟩

/-- C4 counterexample: a roster row matched only via the name fallback is
written (the plan emits its total-score write) but not counted: `updated`
is 0 while the number of distinct matched students is 1. -/
theorem update_marks_updated_ignores_name_matches :
    (SheetsService.update_marks_plan "Sheet1"
        ⟨some ⟨0, "A", "Roll No"⟩, some ⟨1, "B", "Name"⟩, some ⟨2, "C", "Total"⟩,
          none, []⟩
        [⟨2, "2023CSB1122", "harsh modi", ""⟩]
        [⟨"", "harsh modi", "", 7, []⟩]).map (fun p => p.2.updated) =
      Except.ok 0 ∧
    spec_matched_student_count [⟨2, "2023CSB1122", "harsh modi", ""⟩]
      [⟨"", "harsh modi", "", 7, []⟩] = 1 := by
  constructor
  · rfl
  · decide

/-! ### C6: per-question cell writes -/

lemma questionWrites_filter_none (sn : String) (row : Nat)
    (qmap : List (Int × QuestionResult)) (letter : String)
    (cols : List (Int × ColRef))
    (h : ∀ p ∈ cols, (Prod.snd p : ColRef).letter ≠ letter) :
    (questionWrites sn row qmap cols).filter
      (fun w => decide (w.col_letter = letter ∧ w.row = row)) = [] := by
  induction cols with
  | nil => simp [questionWrites]
  | cons qc rest ih =>
    obtain ⟨q0, c0⟩ := qc
    rw [questionWrites, List.filter_append]
    rw [ih (fun p hp => h p (by simp [hp]))]
    have hne := h (q0, c0) (by simp)
    cases hl : dictLookup qmap q0 with
    | none => simp
    | some d => simp [hne]

lemma questionWrites_filter_eq (sn : String) (row : Nat)
    (qmap : List (Int × QuestionResult)) (q : Int) (c : ColRef)
    (cols : List (Int × ColRef))
    (hmem : (q, c) ∈ cols) (hnodup : (cols.map Prod.fst).Nodup)
    (h : ∀ p ∈ cols, p.1 ≠ q → (Prod.snd p : ColRef).letter ≠ c.letter) :
    (questionWrites sn row qmap cols).filter
      (fun w => decide (w.col_letter = c.letter ∧ w.row = row)) =
      match dictLookup qmap q with
      | some d => [⟨sn, c.letter, row, .num (qValToWrite d)⟩]
      | none => [] := by
  induction cols with
  | nil => simp at hmem
  | cons qc rest ih =>
    obtain ⟨q0, c0⟩ := qc
    rw [questionWrites, List.filter_append]
    simp only [List.map_cons, List.nodup_cons] at hnodup
    by_cases hq0 : q0 = q
    · subst hq0
      have hc0 : c0 = c := by
        rcases List.mem_cons.mp hmem with heq | hmem2
        · exact (Prod.mk.injEq _ _ _ _ ▸ heq.symm).2
        · exact absurd (List.mem_map.mpr ⟨(q0, c), hmem2, rfl⟩) hnodup.1
      subst hc0
      have hrest : (questionWrites sn row qmap rest).filter
          (fun w => decide (w.col_letter = c0.letter ∧ w.row = row)) = [] := by
        apply questionWrites_filter_none
        intro p hp
        have hne : p.1 ≠ q0 := by
          intro hbad
          exact hnodup.1 (List.mem_map.mpr ⟨p, hp, hbad⟩)
        exact h p (by simp [hp]) hne
      rw [hrest]
      cases hl : dictLookup qmap q0 with
      | none => simp
      | some d => simp
    · have hne : c0.letter ≠ c.letter := h (q0, c0) (by simp) hq0
      have hmem2 : (q, c) ∈ rest := by
        rcases List.mem_cons.mp hmem with heq | hmem2
        · exact absurd (congrArg Prod.fst heq.symm) hq0
        · exact hmem2
      rw [ih hmem2 hnodup.2 (fun p hp => h p (by simp [hp]))]
      cases hl : dictLookup qmap q0 with
      | none => simp
      | some d => simp [hne]

/-- C6: for every matched student and every detected per-question column
`(q, c)` (column letters pairwise distinct from the total-marks, comment and
other question columns): if `q` has a detail in the result's `details`
exactly one cell write targets that column, with value `0` for
incorrect/multiple/unattempted outcomes and the question's earned score for
correct ones; if `q` has no detail, no write targets the column. -/
theorem per_question_write_per_detail (sn : String) (marksCol : ColRef)
    (commentsLetter : Option String) (questionCols : List (Int × ColRef))
    (student : RosterStudent) (result : RResult) (q : Int) (c : ColRef)
    (hmem : (q, c) ∈ questionCols)
    (hnodup : (questionCols.map Prod.fst).Nodup)
    (hmarks : marksCol.letter ≠ c.letter)
    (hcom : ∀ cl, commentsLetter = some cl → cl ≠ c.letter)
    (hq : ∀ p ∈ questionCols, p.1 ≠ q → (Prod.snd p : ColRef).letter ≠ c.letter) :
    ((writesForStudent sn marksCol commentsLetter questionCols student result).filter
        (fun w => decide (w.col_letter = c.letter ∧ w.row = student.row)) =
      match dictLookup (buildQMap result.details) q with
      | some d => [⟨sn, c.letter, student.row, .num (qValToWrite d)⟩]
      | none => []) ∧
    (∀ d, dictLookup (buildQMap result.details) q = some d →
      ((d.result = "incorrect" ∨ d.result = "multiple" ∨ d.result = "unattempted") →
        qValToWrite d = 0) ∧
      (d.result = "correct" → qValToWrite d = d.score)) := by
  constructor
  · have hm1 : List.filter
        (fun w => decide (w.col_letter = c.letter ∧ w.row = student.row))
        [(⟨sn, marksCol.letter, student.row, CellVal.num result.total_score⟩ :
          CellWrite)] = [] := by
      simp [hmarks]
    cases hclv : commentsLetter with
    | none =>
      unfold writesForStudent
      dsimp only
      rw [List.filter_append, List.filter_append, hm1,
        questionWrites_filter_eq sn student.row (buildQMap result.details) q c
          questionCols hmem hnodup hq]
      simp only [List.filter_nil, List.nil_append]
    | some cl =>
      have hclne := hcom cl hclv
      unfold writesForStudent
      dsimp only
      rw [List.filter_append, List.filter_append, hm1,
        questionWrites_filter_eq sn student.row (buildQMap result.details) q c
          questionCols hmem hnodup hq]
      have hm2 : List.filter
          (fun w => decide (w.col_letter = c.letter ∧ w.row = student.row))
          (if joinSemicolon (finalComments student result) ≠ "" then
            [(⟨sn, cl, student.row,
              CellVal.str (joinSemicolon (finalComments student result))⟩ : CellWrite)]
          else []) = [] := by
        split_ifs <;> simp [hclne]
      rw [hm2]
      simp only [List.nil_append]
  · intro d _
    constructor
    · intro h3
      unfold qValToWrite
      rcases h3 with h3 | h3 | h3 <;> simp [h3]
    · intro h3
      unfold qValToWrite
      simp [h3]

/-- Witness for C6 on a concrete column layout: question column `Q1` (letter
D) receives exactly one write with the earned score for a correct detail,
and `Q2` (letter E), having no detail, receives none. -/
theorem per_question_write_per_detail_witness :
    ((1, (⟨3, "D", "Q1"⟩ : ColRef)) ∈
      [((1 : Int), (⟨3, "D", "Q1"⟩ : ColRef)), (2, ⟨4, "E", "Q2"⟩)]) ∧
    (([((1 : Int), (⟨3, "D", "Q1"⟩ : ColRef)), (2, ⟨4, "E", "Q2"⟩)].map
      Prod.fst).Nodup) ∧
    ((writesForStudent "S" ⟨2, "C", "Total"⟩ (some "F")
        [(1, ⟨3, "D", "Q1"⟩), (2, ⟨4, "E", "Q2"⟩)]
        ⟨2, "e1", "nm", ""⟩
        ⟨"e1", "nm", "", 1, [⟨1, some "A", "A", "correct", 1⟩]⟩).filter
        (fun w => decide (w.col_letter = "D" ∧ w.row = 2)) =
      [⟨"S", "D", 2, .num 1⟩]) :=
  ⟨by decide, by decide, by
    have h := (per_question_write_per_detail "S" ⟨2, "C", "Total"⟩ (some "F")
      [(1, ⟨3, "D", "Q1"⟩), (2, ⟨4, "E", "Q2"⟩)]
      ⟨2, "e1", "nm", ""⟩
      ⟨"e1", "nm", "", 1, [⟨1, some "A", "A", "correct", 1⟩]⟩ 1 ⟨3, "D", "Q1"⟩
      (by decide) (by decide) (by decide)
      (by intro cl hcl; injection hcl with hcl; rw [← hcl]; decide)
      (by decide)).1
    rw [h]
    decide⟩

lemma dictInsert_ne_nil {κ α : Type} [DecidableEq κ]
    (l : List (κ × α)) (k : κ) (v : α) : dictInsert l k v ≠ [] := by
  cases l with
  | nil => simp [dictInsert]
  | cons kv rest =>
    obtain ⟨k0, v0⟩ := kv
    unfold dictInsert
    split_ifs <;> simp

lemma akNormalizeLoop_ok (raw : List (PyKey × RawVal))
    (acc : List (Int × AnswerKeyEntry))
    (hkeys : ∀ kv ∈ raw, pyKeyToInt kv.1 ≠ none)
    (hmarks : ∀ kv ∈ raw, marksCoercible kv.2 = true) :
    ∃ answers, akNormalizeLoop raw acc = .ok answers ∧
      (answers = [] ↔ acc = [] ∧
        raw.filter (fun kv => (pyKeyToInt kv.1).isSome && marksCoercible kv.2 &&
          valueOptionNonempty kv.2) = []) := by
  induction raw generalizing acc with
  | nil => exact ⟨acc, rfl, by simp⟩
  | cons kv rest ih =>
    obtain ⟨key, value⟩ := kv
    have hk : pyKeyToInt key ≠ none := hkeys (key, value) (by simp)
    cases hkq : pyKeyToInt key with
    | none => exact absurd hkq hk
    | some q_num =>
      have hrest : ∀ kv ∈ rest, pyKeyToInt kv.1 ≠ none :=
        fun kv hkv => hkeys kv (by simp [hkv])
      have hmrest : ∀ kv ∈ rest, marksCoercible kv.2 = true :=
        fun kv hkv => hmarks kv (by simp [hkv])
      rw [akNormalizeLoop, hkq]
      dsimp only
      cases value with
      | vdict copt rawMarks =>
        dsimp only
        have hmc : (pyFloatOfMarks rawMarks).isSome = true :=
          hmarks (key, RawVal.vdict copt rawMarks) (by simp)
        cases hfm : pyFloatOfMarks rawMarks with
        | none => rw [hfm] at hmc; exact absurd hmc (by simp)
        | some marks =>
          dsimp only
          by_cases hopt : pyUpper (pyStripStr copt) ≠ ""
          · rw [if_pos hopt]
            obtain ⟨answers, hok, hiff⟩ := ih (dictInsert acc q_num
              ⟨pyUpper (pyStripStr copt), marks⟩) hrest hmrest
            refine ⟨answers, hok, ?_⟩
            rw [hiff, List.filter_cons]
            have hpred : ((pyKeyToInt (key, RawVal.vdict copt rawMarks).1).isSome &&
                marksCoercible (key, RawVal.vdict copt rawMarks).2 &&
                valueOptionNonempty (key, RawVal.vdict copt rawMarks).2) = true := by
              simp [hkq, valueOptionNonempty, marksCoercible, hfm, hopt]
            rw [if_pos hpred]
            simp [dictInsert_ne_nil]
          · rw [if_neg hopt]
            obtain ⟨answers, hok, hiff⟩ := ih acc hrest hmrest
            refine ⟨answers, hok, ?_⟩
            rw [hiff, List.filter_cons]
            have hpred : ((pyKeyToInt (key, RawVal.vdict copt rawMarks).1).isSome &&
                marksCoercible (key, RawVal.vdict copt rawMarks).2 &&
                valueOptionNonempty (key, RawVal.vdict copt rawMarks).2) = false := by
              simp only [ne_eq, not_not] at hopt
              simp [valueOptionNonempty, hopt]
            rw [if_neg (by simp [hpred])]
      | vstr s =>
        dsimp only
        by_cases hopt : pyUpper (pyStripStr s) ≠ ""
        · rw [if_pos hopt]
          obtain ⟨answers, hok, hiff⟩ := ih (dictInsert acc q_num
            ⟨pyUpper (pyStripStr s), 1⟩) hrest hmrest
          refine ⟨answers, hok, ?_⟩
          rw [hiff, List.filter_cons]
          have hpred : ((pyKeyToInt (key, RawVal.vstr s).1).isSome &&
              marksCoercible (key, RawVal.vstr s).2 &&
              valueOptionNonempty (key, RawVal.vstr s).2) = true := by
            simp [hkq, valueOptionNonempty, marksCoercible, hopt]
          rw [if_pos hpred]
          simp [dictInsert_ne_nil]
        · rw [if_neg hopt]
          obtain ⟨answers, hok, hiff⟩ := ih acc hrest hmrest
          refine ⟨answers, hok, ?_⟩
          rw [hiff, List.filter_cons]
          have hpred : ((pyKeyToInt (key, RawVal.vstr s).1).isSome &&
              marksCoercible (key, RawVal.vstr s).2 &&
              valueOptionNonempty (key, RawVal.vstr s).2) = false := by
            simp only [ne_eq, not_not] at hopt
            simp [valueOptionNonempty, hopt]
          rw [if_neg (by simp [hpred])]
      | vother =>
        dsimp only
        obtain ⟨answers, hok, hiff⟩ := ih acc hrest hmrest
        refine ⟨answers, hok, ?_⟩
        rw [hiff, List.filter_cons]
        rw [if_neg (by simp [valueOptionNonempty])]

/-- C7 (amended): when every question key of the raw source is
integer-coercible and every dict entry's marks slot is float-coercible,
`_normalize` raises exactly when zero valid entries result, and a produced
`AnswerKey` never has an empty answers map (its `total_questions` is the
number of surviving entries).  (A non-coercible key makes `int(key)` raise
and a non-coercible marks value makes `float(...)` raise even when valid
entries exist, as the counterexample shows: both calls sit outside any
`try`.) -/
theorem ak_normalize_error_iff (raw_answers : List (PyKey × RawVal)) (neg : ℚ)
    (hkeys : ∀ kv ∈ raw_answers, pyKeyToInt kv.1 ≠ none)
    (hmarks : ∀ kv ∈ raw_answers, marksCoercible kv.2 = true) :
    ((∃ e, AnswerKeyService.normalize raw_answers neg = .error e) ↔
      spec_valid_entry_count raw_answers = 0) ∧
    (∀ key, AnswerKeyService.normalize raw_answers neg = .ok key →
      key.answers ≠ [] ∧ key.total_questions = key.answers.length) := by
  obtain ⟨answers, hok, hiff⟩ := akNormalizeLoop_ok raw_answers [] hkeys hmarks
  unfold AnswerKeyService.normalize
  rw [hok]
  dsimp only
  constructor
  · constructor
    · rintro ⟨e, he⟩
      by_cases hnil : answers = []
      · unfold spec_valid_entry_count
        rw [List.length_eq_zero]
        exact (hiff.mp hnil).2
      · rw [if_neg hnil] at he
        exact absurd he (by simp)
    · intro hcount
      have hnil : answers = [] := by
        rw [hiff]
        refine ⟨rfl, ?_⟩
        unfold spec_valid_entry_count at hcount
        rwa [List.length_eq_zero] at hcount
      rw [if_pos hnil]
      exact ⟨_, rfl⟩
  · intro key hkey
    by_cases hnil : answers = []
    · rw [if_pos hnil] at hkey
      exact absurd hkey (by simp)
    · rw [if_neg hnil] at hkey
      injection hkey with hkey
      subst hkey
      exact ⟨hnil, rfl⟩

/-- Witness for the amended C7 at a one-entry source with a
float-coercible string marks value. -/
theorem ak_normalize_error_iff_witness :
    ([(PyKey.pint 1, RawVal.vdict "A" (RawMarks.str "2.5"))].all
      (fun kv => (pyKeyToInt kv.1).isSome)) = true ∧
    ([(PyKey.pint 1, RawVal.vdict "A" (RawMarks.str "2.5"))].all
      (fun kv => marksCoercible kv.2)) = true ∧
    (((∃ e, AnswerKeyService.normalize
        [(PyKey.pint 1, RawVal.vdict "A" (RawMarks.str "2.5"))] 0 = .error e) ↔
      spec_valid_entry_count
        [(PyKey.pint 1, RawVal.vdict "A" (RawMarks.str "2.5"))] = 0) ∧
     (∀ key, AnswerKeyService.normalize
        [(PyKey.pint 1, RawVal.vdict "A" (RawMarks.str "2.5"))] 0 = .ok key →
      key.answers ≠ [] ∧ key.total_questions = key.answers.length)) :=
  ⟨by decide, by decide,
   ak_normalize_error_iff [(PyKey.pint 1, RawVal.vdict "A" (RawMarks.str "2.5"))] 0
     (by decide) (by decide)⟩

/-- C7 counterexample: `_normalize` raises even though valid entries exist,
through either uncaught coercion.  With raw entries `{"1": "A", "x": "B"}`
the entry `("1", "A")` is valid (one valid entry results) yet `int("x")`
raises; and with `{1: {"correct_option": "A", "marks": 1},
2: {"correct_option": "B", "marks": "bad"}}` the first entry is valid yet
`float("bad")` raises. -/
theorem ak_normalize_aborts_despite_valid_entries :
    (AnswerKeyService.normalize
        [(PyKey.pstr "1", RawVal.vstr "A"), (PyKey.pstr "x", RawVal.vstr "B")] 0 =
      .error "invalid literal for int() with base 10" ∧
    spec_valid_entry_count
      [(PyKey.pstr "1", RawVal.vstr "A"), (PyKey.pstr "x", RawVal.vstr "B")] = 1) ∧
    (AnswerKeyService.normalize
        [(PyKey.pint 1, RawVal.vdict "A" (RawMarks.num 1)),
         (PyKey.pint 2, RawVal.vdict "B" (RawMarks.str "bad"))] 0 =
      .error "could not convert marks value to float" ∧
    spec_valid_entry_count
      [(PyKey.pint 1, RawVal.vdict "A" (RawMarks.num 1)),
       (PyKey.pint 2, RawVal.vdict "B" (RawMarks.str "bad"))] = 1) := by
  refine ⟨⟨?_, ?_⟩, ?_, ?_⟩
  · rfl
  · decide
  · rfl
  · decide

/-- C8: the `details` sequence of every scoring result is sorted in
ascending order of `question_number`, whatever the iteration order of the
key's answers or of the student's answers. -/
theorem match_and_score_details_sorted (ak : AnswerKey) (inp : StudentAnswers) :
    List.Sorted qrLe (EvaluationService.match_and_score ak inp).details := by
  unfold EvaluationService.match_and_score
  simp only
  exact List.sorted_insertionSort qrLe _

end SpecProof
